import Mathlib

/-!
# Orbit: capture client and string utilities

A shallow embedding of

* `OrbitCore/Utils.h`: `RemoveTrailingNewLine`, `ReplaceStringInPlace`,
  `Replace`, `ShortenStringWithEllipsis`, `GetMicros`, `LTrim`, `RTrim`, `trim`;
* `OrbitBase/Logging.h`: `CHECK`;
* `OrbitCaptureClient/CaptureClient.h`: the `CaptureClient` constructor;
* `OrbitGl/GlPanel.cpp`: `GlPanel::GlPanel` and `GlPanel::Create`.

The bodies of `CaptureClient::Capture`, `StopCapture` and `FinishCapture`
are not part of the sources at hand (the header only declares them), so
the capture session state machine is modelled from the design
specification; those definitions are marked as such.

A `std::string` / `std::string_view` is a `List Char`; `size_t` values are
natural numbers reduced modulo `2 ^ 64` wherever the source computes with
them.
-/

namespace Orbit

/-! ## Strings -/

/-- The contents of a `std::string` or `std::string_view`. -/
abbrev Str := List Char

/-- The number of values of `size_t`. -/
def SIZE_MOD : Nat := 2 ^ 64

/-- Unsigned subtraction on `size_t`. -/
def subSz (a b : Nat) : Nat := (a + SIZE_MOD - b % SIZE_MOD) % SIZE_MOD

/-- Unsigned addition on `size_t`. -/
def addSz (a b : Nat) : Nat := (a + b) % SIZE_MOD

/-- Model of `absl::EndsWith(text, suffix)`: the suffix is empty, or the text is
at least as long and its last characters are the suffix. -/
def EndsWith (text suffix : Str) : Bool :=
  suffix.isEmpty ||
    (decide (suffix.length ≤ text.length) &&
      text.drop (text.length - suffix.length) == suffix)

/-- Model of `std::string::pop_back` (only called on non-empty strings). -/
def pop_back (s : Str) : Str := s.dropLast

/-- Embedding of `RemoveTrailingNewLine` (Utils.h): the value left in `a_String`. -/
def RemoveTrailingNewLine (a_String : Str) : Str :=
  if EndsWith a_String ['\n'] then
    pop_back a_String
  else if EndsWith a_String ['\r', '\n'] then
    pop_back (pop_back a_String)
  else
    a_String

/-- Model of `std::string_view::substr(pos, count)`; `count = none` is the
default `npos`. The call throws `std::out_of_range` when `pos > size()`, which
is `none` here. -/
def substr (text : Str) (pos : Nat) (count : Option Nat) : Option Str :=
  if pos > text.length then none
  else
    match count with
    | none => some (text.drop pos)
    | some n => some ((text.drop pos).take n)

/-- The constant `kNumCharsEllipsis`. -/
def kNumCharsEllipsis : Nat := 3

/-- Embedding of `ShortenStringWithEllipsis` (Utils.h); `none` is an exception
thrown by one of the two `substr` calls. The parameter `pos` is left out: the
source does not use it (`UNUSED(pos)`). -/
def ShortenStringWithEllipsis (text : Str) (max_len : Nat) : Option Str :=
  if max_len ≤ kNumCharsEllipsis then
    some (if text.length ≤ kNumCharsEllipsis then text else ['.', '.', '.'])
  else if text.length ≤ max_len then
    some text
  else
    let chars_to_cut := addSz (subSz text.length max_len) kNumCharsEllipsis
    let l₀ := subSz text.length chars_to_cut
    -- Integer division by two, rounded up
    let l := if l₀ % 2 = 1 then (addSz l₀ 1) / 2 else l₀ / 2
    let r := addSz l chars_to_cut
    match substr text 0 (some l), substr text r none with
    | some a, some b => some (a ++ ['.', '.', '.'] ++ b)
    | _, _ => none

/-- Scan of `std::string::find`: `rest` is the part of the subject from index
`i` on; the answer is the first index at which `search` starts. -/
def findAux (search : Str) : Str → Nat → Option Nat
  | [], i => if search.isEmpty then some i else none
  | c :: tl, i =>
    if search.isPrefixOf (c :: tl) then some i else findAux search tl (i + 1)

/-- Model of `std::string::find(search, pos)`; `none` is `std::string::npos`. -/
def find (subject search : Str) (pos : Nat) : Option Nat :=
  if pos > subject.length then none else findAux search (subject.drop pos) pos

/-- Model of `std::string::replace(pos, len, str)` for `pos ≤ size()`. -/
def replaceAt (subject : Str) (pos len : Nat) (str : Str) : Str :=
  subject.take pos ++ str ++ subject.drop (pos + len)

/-- What a `const std::string&` parameter of `ReplaceStringInPlace` refers to:
the very object that is passed as `subject`, or another string. -/
inductive StrRef where
  | subject
  | other (value : Str)
  deriving DecidableEq, Repr

/-- The string that a reference designates while the subject holds `current`. -/
def StrRef.read (current : Str) : StrRef → Str
  | StrRef.subject => current
  | StrRef.other value => value

/-- The `while` loop of `ReplaceStringInPlace` (Utils.h), started with the
current `subject` and `pos`. `search` and `replace` are references and are read
again wherever the source reads them: `search` for `find` and for
`search.length()` before the replacement, `replace` as the argument of
`subject.replace` (which copes with an argument inside the string itself) and
again, after the replacement, for `replace.length()`. One unit of fuel is one
evaluation of the loop condition; `none` means the fuel ran out. Positions
never exceed the length of the string by more than one, so the `size_t`
additions do not wrap for a string that fits in memory, and positions are plain
natural numbers here. -/
def ReplaceStringInPlaceLoop (search replace : StrRef) : Nat → Str → Nat → Option Str
  | 0, _, _ => none
  | fuel + 1, subject, pos =>
    match find subject (search.read subject) pos with
    | none => some subject
    | some p =>
      let replaced :=
        replaceAt subject p (search.read subject).length (replace.read subject)
      ReplaceStringInPlaceLoop search replace fuel replaced
        (p + max (replace.read replaced).length 1)

/-- Embedding of `ReplaceStringInPlace` (Utils.h): the value left in `subject`.
`search` and `replace` say whether the caller passed the subject itself. -/
def ReplaceStringInPlace (fuel : Nat) (subject : Str) (search replace : StrRef) :
    Option Str :=
  ReplaceStringInPlaceLoop search replace fuel subject 0

/-- The `while` loop of `Replace` (Utils.h); fuel as in
`ReplaceStringInPlaceLoop`. The loop works on a local copy of `a_Subject`, which
no parameter can refer to, so `search` and `replace` keep their values. -/
def ReplaceLoop (search replace : Str) : Nat → Str → Nat → Option Str
  | 0, _, _ => none
  | fuel + 1, subject, pos =>
    match find subject search pos with
    | none => some subject
    | some p =>
      ReplaceLoop search replace fuel
        (replaceAt subject p search.length replace) (p + replace.length)

/-- Embedding of `Replace` (Utils.h): the returned string. -/
def Replace (fuel : Nat) (a_Subject search replace : Str) : Option Str :=
  ReplaceLoop search replace fuel a_Subject 0

/-! ## `CHECK` and the `CaptureClient` constructor -/

/-- Embedding of the macro `CHECK(assertion)` (Logging.h): when the assertion is
false the message `"Check failed: " #assertion` is logged and the process
aborts, which is `Except.error` of the logged message here. -/
def CHECK (assertion : Bool) (text : String) : Except String Unit :=
  if !assertion then Except.error ("Check failed: " ++ text) else Except.ok ()

/-- The data members of `CaptureClient` (CaptureClient.h). A pointer is an
`Option`, `none` being `nullptr`; `Stub`, `RW`, `L` and `EP` stand for the stub,
the reader-writer, the listener and the event processor. -/
structure CaptureClient (Stub RW L EP : Type) where
  capture_service_ : Stub
  reader_writer_ : Option RW
  capture_listener_ : Option L
  event_processor_ : Option EP

/-- Embedding of the constructor `CaptureClient::CaptureClient(channel,
capture_listener)`: the member initialisers, then
`CHECK(capture_listener_ != nullptr)`. `NewStub` stands for
`CaptureService::NewStub`. -/
def CaptureClient.create {Channel Stub RW L EP : Type} (NewStub : Channel → Stub)
    (channel : Channel) (capture_listener : Option L) :
    Except String (CaptureClient Stub RW L EP) :=
  let self : CaptureClient Stub RW L EP :=
    { capture_service_ := NewStub channel
      reader_writer_ := none
      capture_listener_ := capture_listener
      event_processor_ := none }
  match CHECK self.capture_listener_.isSome "capture_listener_ != nullptr" with
  | Except.error msg => Except.error msg
  | Except.ok () => Except.ok self

/-! ## Capture session controller

`CaptureClient.h` declares `Capture`, `StopCapture` and `FinishCapture`; their
bodies are not among the sources. The definitions of this section follow the
design specification (sections 3, 4, 6, 7 and 8). -/

/-- Modelled from the spec: the states of the session state machine (4.1);
the body of `CaptureClient::Capture` / `StopCapture` is missing. -/
inductive State where
  | Idle | Starting | Capturing | Stopping | Finished | Error
  deriving DecidableEq, Repr

/-- Modelled from the spec: the error kinds of section 7; how the missing bodies
of `CaptureClient::Capture` / `StopCapture` report a failure. -/
inductive ErrorKind where
  | InvalidTarget | AlreadyCapturing | NotCapturing
  | ConnectionError | TransportError | ProtocolViolation
  deriving DecidableEq, Repr

/-- Modelled from the spec: `CaptureTarget` (section 3), a process id and the
instrumentation set, a map from function identifier to metadata: the arguments
`pid` and `selected_functions` of `CaptureClient::Capture`, whose body is
missing (as is `FunctionInfo`, the metadata). -/
structure CaptureTarget where
  pid : Int
  selected_functions : List (Nat × String)
  deriving DecidableEq, Repr

/-- Modelled from the spec: the calls made on the transport capability
(section 6), which the missing bodies of `CaptureClient` make on
`capture_service_` and `reader_writer_`; `Receive` is the arrival of a
transport input. -/
inductive TransportCall where
  | Open (pid : Int)
  | Send (request : CaptureTarget)
  | HalfClose
  | Cancel
  deriving DecidableEq, Repr

/-- Modelled from the spec: the calls made on the listener capability
(section 6); `CaptureListener.h` is missing. -/
inductive ListenerCall (D : Type) where
  | OnStarted
  | OnEvents (batch : List D)
  | OnFinished (truncated : Bool)
  | OnError (kind : ErrorKind)
  deriving DecidableEq, Repr

/-- Modelled from the spec: outcome of `Processor.Process` on one RawEvent
(4.2): the decoded events with the next ProcessorState, a malformed event that
is skipped, or a fatal inconsistency (`ProtocolViolation`);
`CaptureEventProcessor.h` is missing. -/
inductive Decoded (D S : Type) where
  | events (batch : List D) (next : S)
  | malformed
  | fatal
  deriving DecidableEq, Repr

/-- Modelled from the spec: the Event Processor (4.2) over RawEvents `R`,
DomainEvents `D` and ProcessorState `S`; a session starts from `fresh`.
`CaptureEventProcessor.h` is missing, so the processor is a parameter. -/
structure Processor (R D S : Type) where
  fresh : S
  Process : S → R → Decoded D S
  Finalize : S → List D

/-- Modelled from the spec: the controller with its session (section 3), the
state on which the missing bodies of `CaptureClient` work: state, transport
handle (`reader_writer_`), ProcessorState (`event_processor_`), sequence
counter and error slot. `session` counts the sessions started, and `transport`
and `listener` record the calls made so far, each listener call tagged with
the session it belongs to. -/
structure Controller (D S : Type) where
  state : State
  reader_writer_ : Option Nat
  event_processor_ : Option S
  sequence : Nat
  error : Option ErrorKind
  session : Nat
  transport : List TransportCall
  listener : List (Nat × ListenerCall D)
  deriving DecidableEq, Repr

/-- Modelled from the spec: a controller on which no capture was started yet
(a `CaptureClient` right after construction, before the missing `Capture`). -/
def Controller.initial (D S : Type) : Controller D S :=
  { state := State.Idle, reader_writer_ := none, event_processor_ := none,
    sequence := 0, error := none, session := 0, transport := [], listener := [] }

/-- Modelled from the spec: what can happen to a controller: the two foreground
operations (`opened` is the answer of the transport's `Open`), what the
blocking `Receive` of the background task yields, the end of the grace period,
and the finalize pass that resets the controller (4.1). These are the events
the missing bodies of `Capture`, `StopCapture` and `FinishCapture` react to. -/
inductive Input (R : Type) where
  | StartCapture (target : CaptureTarget) (opened : Option Nat)
  | StopCapture
  | Response (raw : R)
  | EndOfStream
  | TransportError
  | GraceElapsed
  | FinalizePass
  deriving DecidableEq, Repr

/-- States in which a session is in progress and the receive task runs. -/
def State.active : State → Bool
  | State.Starting | State.Capturing | State.Stopping => true
  | _ => false

/-- Modelled from the spec: one listener call (a call through
`capture_listener_` in the missing bodies), recorded for the current session. -/
def Controller.notify {D S : Type} (c : Controller D S) (call : ListenerCall D) :
    Controller D S :=
  { c with listener := c.listener ++ [(c.session, call)] }

/-- Modelled from the spec: dispatch of a batch of DomainEvents to the listener
(`OnEvents`), part of the missing receive loop; nothing is delivered for an
empty batch (8, first scenario). -/
def Controller.deliver {D S : Type} (c : Controller D S) (batch : List D) :
    Controller D S :=
  if batch.isEmpty then c else c.notify (ListenerCall.OnEvents batch)

/-- Modelled from the spec: `Processor.Finalize` at shutdown (4.2), part of the
missing `FinishCapture`: the deferred events are delivered and the
ProcessorState is released. -/
def Controller.flush {R D S : Type} (P : Processor R D S) (c : Controller D S) :
    Controller D S :=
  match c.event_processor_ with
  | none => c
  | some ps => { c.deliver (P.Finalize ps) with event_processor_ := none }

/-- Modelled from the spec: the session ends in `Finished` (the missing
`FinishCapture`): the processor is finalized, the transport is released
(cancelled first on the forced path) and the listener is told once. -/
def Controller.finish {R D S : Type} (P : Processor R D S) (c : Controller D S)
    (truncated forced : Bool) : Controller D S :=
  let c₁ := c.flush P
  let c₂ : Controller D S :=
    { c₁ with
      transport := if forced then c₁.transport ++ [TransportCall.Cancel] else c₁.transport
      reader_writer_ := none }
  { c₂.notify (ListenerCall.OnFinished truncated) with state := State.Finished }

/-- Modelled from the spec: the session ends in `Error` (4.1, 7; the missing
`FinishCapture` on the error path): buffered events are flushed, the error is
recorded in the error slot (set at most once), the transport is torn down and
the listener is told once. -/
def Controller.fail {R D S : Type} (P : Processor R D S) (c : Controller D S)
    (kind : ErrorKind) : Controller D S :=
  let c₁ := c.flush P
  let c₂ : Controller D S :=
    { c₁ with
      error := if c₁.error.isSome then c₁.error else some kind
      transport := c₁.transport ++ [TransportCall.Cancel]
      reader_writer_ := none }
  { c₂.notify (ListenerCall.OnError kind) with state := State.Error }

/-- Modelled from the spec: what a foreground call (the missing `Capture` or
`StopCapture`) reports to its caller. -/
inductive CallResult where
  | ok
  | failed (kind : ErrorKind)
  deriving DecidableEq, Repr

/-- Modelled from the spec: `StartCapture(target)` (4.1, 7), the missing body of
`CaptureClient::Capture`. The state precondition is checked first (table row
"any, StartCapture while not Idle"), then the target, and only then is the
transport opened and the start request sent. A successful call starts a new
session with a fresh ProcessorState. -/
def Controller.StartCapture {R D S : Type} (P : Processor R D S) (c : Controller D S)
    (target : CaptureTarget) (opened : Option Nat) : Controller D S × CallResult :=
  if c.state ≠ State.Idle then
    (c, CallResult.failed ErrorKind.AlreadyCapturing)
  else if target.selected_functions.isEmpty then
    (c, CallResult.failed ErrorKind.InvalidTarget)
  else
    match opened with
    | none =>
      ({ c with transport := c.transport ++ [TransportCall.Open target.pid] },
        CallResult.failed ErrorKind.ConnectionError)
    | some handle =>
      ({ state := State.Starting
         reader_writer_ := some handle
         event_processor_ := some P.fresh
         sequence := 0
         error := none
         session := c.session + 1
         transport := c.transport ++ [TransportCall.Open target.pid, TransportCall.Send target]
         listener := c.listener },
        CallResult.ok)

/-- Modelled from the spec: `StopCapture()` (4.1), the missing body of
`CaptureClient::StopCapture`: from `Capturing` the stop signal (half-close) is
sent and the state becomes `Stopping`; in `Stopping` and `Finished` the call is
a no-op; in the other states the state precondition is violated and the call
is rejected with `NotCapturing`, without side effects. -/
def Controller.StopCapture {D S : Type} (c : Controller D S) : Controller D S × CallResult :=
  match c.state with
  | State.Capturing =>
    ({ c with state := State.Stopping, transport := c.transport ++ [TransportCall.HalfClose] },
      CallResult.ok)
  | State.Stopping | State.Finished => (c, CallResult.ok)
  | State.Idle | State.Starting | State.Error =>
    (c, CallResult.failed ErrorKind.NotCapturing)

/-- Modelled from the spec: the receive loop, missing with the body of
`CaptureClient::Capture`, on one RawEvent (4.1, 4.2): the sequence counter advances, the event goes to the processor and the decoded
events to the listener; a malformed event is skipped, a fatal one escalates to
`Error` with `ProtocolViolation`. -/
def Controller.receive {R D S : Type} (P : Processor R D S) (c : Controller D S) (raw : R) :
    Controller D S :=
  match c.event_processor_ with
  | none => c
  | some ps =>
    let c₁ : Controller D S := { c with sequence := c.sequence + 1 }
    match P.Process ps raw with
    | Decoded.events batch next =>
      Controller.deliver { c₁ with event_processor_ := some next } batch
    | Decoded.malformed => c₁
    | Decoded.fatal => c₁.fail P ErrorKind.ProtocolViolation

/-- Modelled from the spec: a response arrives in the missing receive loop. In
`Starting` it is the first
response: the session becomes `Capturing` and the listener is told `OnStarted`
before the event is processed. Without a session nothing is received. -/
def Controller.onResponse {R D S : Type} (P : Processor R D S) (c : Controller D S) (raw : R) :
    Controller D S :=
  match c.state with
  | State.Starting =>
    Controller.receive P (Controller.notify { c with state := State.Capturing }
      ListenerCall.OnStarted) raw
  | State.Capturing | State.Stopping => c.receive P raw
  | _ => c

/-- Modelled from the spec: the transport reports end-of-stream to the missing
receive loop. After a stop
request the session finishes cleanly; when the server closes the stream without
one (8, boundary) the session still finishes, marked truncated, rather than
hanging. The spec states the latter for `Capturing`; `Starting` is treated alike. -/
def Controller.onEndOfStream {R D S : Type} (P : Processor R D S) (c : Controller D S) :
    Controller D S :=
  match c.state with
  | State.Stopping => c.finish P false false
  | State.Capturing | State.Starting => c.finish P true false
  | _ => c

/-- Modelled from the spec: a transport error during a session drives it to
`Error` (4.1: "on any transport error"); part of the missing receive loop. -/
def Controller.onTransportError {R D S : Type} (P : Processor R D S) (c : Controller D S) :
    Controller D S :=
  if c.state.active then c.fail P ErrorKind.TransportError else c

/-- Modelled from the spec: the grace period elapses while `Stopping` (missing
with the body of `StopCapture`): the transport is cancelled and the session
finishes, truncated. -/
def Controller.onGraceElapsed {R D S : Type} (P : Processor R D S) (c : Controller D S) :
    Controller D S :=
  match c.state with
  | State.Stopping => c.finish P true true
  | _ => c

/-- Modelled from the spec: the end of the finalize pass (4.1), the last part
of the missing `FinishCapture`: once a session has ended in `Finished` or `Error` the controller is reset to `Idle`, so that a
fresh `StartCapture` is legal. -/
def Controller.finalizePass {D S : Type} (c : Controller D S) : Controller D S :=
  match c.state with
  | State.Finished | State.Error =>
    { c with state := State.Idle, reader_writer_ := none, event_processor_ := none }
  | _ => c

/-- Modelled from the spec: one step of the controller on an input, with what
the call reports (transport inputs report nothing, which is `ok`); it
dispatches to the models of the missing bodies. -/
def step {R D S : Type} (P : Processor R D S) (c : Controller D S) :
    Input R → Controller D S × CallResult
  | Input.StartCapture target opened => c.StartCapture P target opened
  | Input.StopCapture => c.StopCapture
  | Input.Response raw => (c.onResponse P raw, CallResult.ok)
  | Input.EndOfStream => (c.onEndOfStream P, CallResult.ok)
  | Input.TransportError => (c.onTransportError P, CallResult.ok)
  | Input.GraceElapsed => (c.onGraceElapsed P, CallResult.ok)
  | Input.FinalizePass => (c.finalizePass, CallResult.ok)

/-- The controller after a sequence of inputs. -/
def run {R D S : Type} (P : Processor R D S) (c : Controller D S) :
    List (Input R) → Controller D S
  | [] => c
  | i :: rest => run P (step P c i).1 rest

/-- The DomainEvents carried by one listener call. -/
def batchOf {D : Type} : ListenerCall D → List D
  | ListenerCall.OnEvents batch => batch
  | _ => []

/-- The DomainEvents delivered by a sequence of listener calls, in order. -/
def delivered {D : Type} : List (Nat × ListenerCall D) → List D
  | [] => []
  | e :: rest => batchOf e.2 ++ delivered rest

/-- The claim's reading of decoding (C3): `Process` applied to each RawEvent in
receive order, the outputs concatenated, with the ProcessorState reached at
the end; `none` when some RawEvent is malformed or fatal. -/
def decodeAll {R D S : Type} (P : Processor R D S) : S → List R → Option (List D × S)
  | ps, [] => some ([], ps)
  | ps, raw :: rest =>
    match P.Process ps raw with
    | Decoded.events batch next =>
      match decodeAll P next rest with
      | some (evs, last) => some (batch ++ evs, last)
      | none => none
    | _ => none

/-- The RawEvents among a sequence of inputs, in receive order. -/
def rawsOf {R : Type} : List (Input R) → List R
  | [] => []
  | Input.Response raw :: rest => raw :: rawsOf rest
  | _ :: rest => rawsOf rest

/-- `OnFinished` and `OnError`, the calls that end a session for the listener. -/
def ListenerCall.isEnd {D : Type} : ListenerCall D → Bool
  | ListenerCall.OnFinished _ | ListenerCall.OnError _ => true
  | _ => false

/-- The `OnEvents` calls. -/
def ListenerCall.isEvents {D : Type} : ListenerCall D → Bool
  | ListenerCall.OnEvents _ => true
  | _ => false

/-- A sample processor for concrete runs: a RawEvent `n` decodes to the
DomainEvent `n`, except `0`, which is malformed, and `1`, which is fatal; the
ProcessorState counts the decoded events and `Finalize` emits the count plus
one hundred. -/
def sampleProcessor : Processor Nat Nat Nat :=
  { fresh := 0
    Process := fun ps raw =>
      if raw = 0 then Decoded.malformed
      else if raw = 1 then Decoded.fatal
      else Decoded.events [raw] (ps + 1)
    Finalize := fun ps => [100 + ps] }

/-- A sample target: process 42 with one selected function. -/
def sampleTarget : CaptureTarget :=
  { pid := 42, selected_functions := [(0x1000, "foo")] }

/-- The listener calls that dispatching a batch adds. -/
def batchCalls {D : Type} (batch : List D) : List (ListenerCall D) :=
  if batch.isEmpty then [] else [ListenerCall.OnEvents batch]

/-- The listener calls that flushing the processor adds. -/
def flushCalls {R D S : Type} (P : Processor R D S) : Option S → List (ListenerCall D)
  | none => []
  | some ps => batchCalls (P.Finalize ps)

/-- Listener calls tagged with a session. -/
def tagged {D : Type} (session : Nat) (calls : List (ListenerCall D)) :
    List (Nat × ListenerCall D) :=
  calls.map (fun call => (session, call))

/-- The number of `OnFinished` / `OnError` calls recorded for a session. -/
def endCount {D : Type} (session : Nat) : List (Nat × ListenerCall D) → Nat
  | [] => 0
  | e :: rest =>
    (if e.1 = session ∧ e.2.isEnd = true then 1 else 0) + endCount session rest

/-- The number of stop signals (half-closes) recorded on the transport. -/
def halfCloseCount : List TransportCall → Nat
  | [] => 0
  | TransportCall.HalfClose :: rest => halfCloseCount rest + 1
  | _ :: rest => halfCloseCount rest

/-- An earlier listener call `a` ends a session and a later call `b` delivers
events of the same session. -/
def eventsAfterEnd {D : Type} (a b : Nat × ListenerCall D) : Prop :=
  a.1 = b.1 ∧ a.2.isEnd = true ∧ b.2.isEvents = true

/-- The listener log of `c'` extends that of `c` by calls that deliver exactly
the DomainEvents `evs`. -/
def Grows {D S : Type} (c c' : Controller D S) (evs : List D) : Prop :=
  ∃ added, c'.listener = c.listener ++ added ∧ delivered added = evs

/-- A session is in progress with ProcessorState `ps`. -/
def Receiving {D S : Type} (c : Controller D S) (ps : S) : Prop :=
  c.state.active = true ∧ c.event_processor_ = some ps

/-- The number of `OnFinished` / `OnError` calls in a list of listener calls. -/
def endsIn {D : Type} : List (ListenerCall D) → Nat
  | [] => 0
  | call :: rest => (if call.isEnd = true then 1 else 0) + endsIn rest

/-- No call that ends a session is followed by an `OnEvents` call. -/
def Tame {D : Type} (calls : List (ListenerCall D)) : Prop :=
  calls.Pairwise (fun a b => ¬ (a.isEnd = true ∧ b.isEvents = true))

/-- What one step other than a successful `StartCapture` does to the listener
log: it stays in the session and adds calls of that session, none when no
session is in progress, and one ending call exactly when the session ends. -/
def StepShape {D S : Type} (c c' : Controller D S) : Prop :=
  c'.session = c.session ∧
    ∃ calls, c'.listener = c.listener ++ tagged c.session calls ∧ Tame calls ∧
      endsIn calls = (if c.state.active = true ∧ c'.state.active = false then 1 else 0) ∧
      (c.state.active = false → calls = [] ∧ c'.state.active = false)

/-- The invariant of the listener log: no `OnEvents` after the end of its
session, no call of a session that has not started, and no ending call for a
session still in progress. -/
def LogInv {D S : Type} (c : Controller D S) : Prop :=
  c.listener.Pairwise (fun a b => ¬ eventsAfterEnd a b) ∧
    (∀ e ∈ c.listener, e.1 ≤ c.session) ∧
    (c.state.active = true → ∀ e ∈ c.listener, e.1 = c.session → e.2.isEnd = false)

/-! ## Timestamps, trimming and the panel factory -/

/-- Model of `absl::StrSplit(text, delimiter)` for a delimiter of one character:
the pieces between the delimiters, in order; the empty text gives one empty
piece. -/
def StrSplit (delimiter : Char) : Str → List Str
  | [] => [[]]
  | c :: tl =>
    if c = delimiter then [] :: StrSplit delimiter tl
    else
      match StrSplit delimiter tl with
      | [] => [[c]]
      | piece :: pieces => (c :: piece) :: pieces

/-- The characters for which `isspace` holds in the "C" locale. -/
def isspace (c : Char) : Bool :=
  c = ' ' || c = '\t' || c = '\n' || c = '\x0b' || c = '\x0c' || c = '\r'

/-- The value of a run of decimal digits, most significant first, continuing
from `acc`. -/
def digitsValue (acc : Nat) : Str → Nat
  | [] => acc
  | c :: tl => digitsValue (acc * 10 + (c.toNat - '0'.toNat)) tl

/-- The number of values of `int`. -/
def INT_MOD : Int := 2 ^ 32

/-- Model of `atoi(s.c_str())`: leading white space is skipped, then an optional
sign and the longest run of decimal digits are read; what follows is ignored.
A value that does not fit an `int` is undefined behaviour, which is `none`. -/
def atoi (s : Str) : Option Int :=
  let body := s.dropWhile isspace
  let (negative, rest) :=
    match body with
    | '-' :: tl => (true, tl)
    | '+' :: tl => (false, tl)
    | _ => (false, body)
  let magnitude : Int := (digitsValue 0 (rest.takeWhile Char.isDigit) : Nat)
  let value : Int := if negative then -magnitude else magnitude
  if -(INT_MOD / 2) ≤ value ∧ value < INT_MOD / 2 then some value else none

/-- Conversion of an `int` to `uint64_t`. -/
def toUInt64 (v : Int) : Nat := (v % (SIZE_MOD : Int)).toNat

/-- Embedding of `GetMicros` (Utils.h). The call `Replace(a_TimeStamp, ":", "")`
is made and its result is dropped, as in the source: `Replace` returns the new
string and leaves its argument alone. `none` is a call that does not end
within the fuel, or an `atoi` out of range. -/
def GetMicros (fuel : Nat) (a_TimeStamp : Str) : Option Nat :=
  match Replace fuel a_TimeStamp [':'] [] with
  | none => none
  | some _ =>
    let tokens := StrSplit '.' a_TimeStamp
    match tokens with
    | [token0, token1] =>
      match atoi token0, atoi token1 with
      | some seconds, some micros =>
        some ((toUInt64 seconds * 1000000 + toUInt64 micros) % SIZE_MOD)
      | _, _ => none
    | _ => some 0

/-- The constant `std::string::npos`, the largest `size_t`. -/
def npos : Nat := SIZE_MOD - 1

/-- Forward scan of `std::string::find_first_not_of`: `rest` is the part of the
string from index `i` on. -/
def find_first_not_of_aux (chars : Str) : Str → Nat → Nat
  | [], _ => npos
  | c :: tl, i => if chars.contains c then find_first_not_of_aux chars tl (i + 1) else i

/-- Model of `std::string::find_first_not_of(chars)`: the index of the first
character that is not in `chars`, or `npos`. -/
def find_first_not_of (str chars : Str) : Nat :=
  find_first_not_of_aux chars str 0

/-- Backward scan of `std::string::find_last_not_of`: the argument is the string
reversed, so the index of its head is the length of its tail. -/
def find_last_not_of_aux (chars : Str) : Str → Nat
  | [] => npos
  | c :: tl => if chars.contains c then find_last_not_of_aux chars tl else tl.length

/-- Model of `std::string::find_last_not_of(chars)`: the index of the last
character that is not in `chars`, or `npos`. -/
def find_last_not_of (str chars : Str) : Nat :=
  find_last_not_of_aux chars str.reverse

/-- Model of `std::string::erase(index, count)`: removes `min(count, size() -
index)` characters from `index` on; throws `std::out_of_range` (`none`) when
`index > size()`. -/
def erase (str : Str) (index count : Nat) : Option Str :=
  if index > str.length then none
  else some (str.take index ++ str.drop (index + min count (str.length - index)))

/-- Embedding of `LTrim` (Utils.h): `str.erase(0, str.find_first_not_of(chars))`. -/
def LTrim (str chars : Str) : Option Str :=
  erase str 0 (find_first_not_of str chars)

/-- Embedding of `RTrim` (Utils.h): `str.erase(str.find_last_not_of(chars) + 1)`,
the addition in `size_t` and the count defaulted to `npos`. -/
def RTrim (str chars : Str) : Option Str :=
  erase str (addSz (find_last_not_of str chars) 1) npos

/-- Embedding of `trim` (Utils.h): `LTrim(RTrim(str, chars), chars)`. -/
def trim (str chars : Str) : Option Str :=
  match RTrim str chars with
  | none => none
  | some r => LTrim r chars

/-- The default value of the parameter `chars` of `LTrim`, `RTrim` and `trim`. -/
def defaultTrimChars : Str := ['\t', '\n', '\x0b', '\x0c', '\r', ' ']

/-- The claim's reading of trimming (C12): the longest prefix made of characters
of `chars` is removed, then the longest such suffix of what is left. -/
def trimmed (str chars : Str) : Str :=
  (str.dropWhile chars.contains).rdropWhile chars.contains

/-- The dynamic class of a panel object. -/
inductive PanelClass where
  | GlPanel | CaptureWindow
  deriving DecidableEq, Repr

/-- The members of a `GlPanel` that the sources set, with its dynamic class. The
enumeration `GlPanel::Type` is declared in `GlPanel.h`, which is not among the
sources, so it is the parameter `T`; `m_Type` is `none` until it is assigned. -/
structure GlPanel (T : Type) where
  cls : PanelClass
  m_Type : Option T
  m_WindowOffset : Int × Int
  m_MainWindowWidth : Int
  m_MainWindowHeight : Int
  m_NeedsRedraw : Bool
  deriving DecidableEq, Repr

/-- Embedding of the constructor `GlPanel::GlPanel()` (GlPanel.cpp), run for an
object of dynamic class `cls`. -/
def GlPanel.construct (T : Type) (cls : PanelClass) : GlPanel T :=
  { cls := cls, m_Type := none, m_WindowOffset := (0, 0), m_MainWindowWidth := 0,
    m_MainWindowHeight := 0, m_NeedsRedraw := true }

/-- Embedding of `GlPanel::Create` (GlPanel.cpp). `CAPTURE` is the enumerator of
the missing enumeration that the `switch` names, and
`std::make_unique<CaptureWindow>()` is the base constructor run for a
`CaptureWindow`. `none` is the dereference of a null `panel` in
`panel->m_Type = a_Type`. -/
def GlPanel.Create {T : Type} [DecidableEq T] (CAPTURE : T) (a_Type : T) :
    Option (GlPanel T) :=
  let panel : Option (GlPanel T) := none
  let panel : Option (GlPanel T) :=
    if a_Type = CAPTURE then some (GlPanel.construct T PanelClass.CaptureWindow) else panel
  match panel with
  | none => none
  | some p => some { p with m_Type := some a_Type }

end Orbit

namespace Orbit

/-! ## Facts about the string helpers -/

lemma subSz_eq {a b : Nat} (hb : b ≤ a) (ha : a < SIZE_MOD) : subSz a b = a - b := by
  unfold subSz
  have hb' : b % SIZE_MOD = b := Nat.mod_eq_of_lt (lt_of_le_of_lt hb ha)
  rw [hb']
  have h : a + SIZE_MOD - b = (a - b) + SIZE_MOD := by omega
  rw [h, Nat.add_mod_right]
  exact Nat.mod_eq_of_lt (by omega)

lemma addSz_eq {a b : Nat} (h : a + b < SIZE_MOD) : addSz a b = a + b := by
  unfold addSz
  exact Nat.mod_eq_of_lt h

lemma shorten_long (text : Str) (max_len : Nat)
    (hmax : 3 < max_len) (hlen : max_len < text.length) (hsz : text.length < SIZE_MOD) :
    ShortenStringWithEllipsis text max_len =
      some (text.take ((max_len - 3 + 1) / 2) ++ ['.', '.', '.'] ++
        text.drop (text.length - (max_len - 3) / 2)) := by
  have hcut : addSz (subSz text.length max_len) kNumCharsEllipsis
      = text.length - max_len + 3 := by
    rw [subSz_eq (le_of_lt hlen) hsz, addSz_eq (by unfold kNumCharsEllipsis; omega)]
    rfl
  have hl0 : subSz text.length (text.length - max_len + 3) = max_len - 3 := by
    rw [subSz_eq (by omega) hsz]; omega
  have hl : (if (max_len - 3) % 2 = 1 then (addSz (max_len - 3) 1) / 2
      else (max_len - 3) / 2) = (max_len - 3 + 1) / 2 := by
    rw [addSz_eq (by omega)]
    split <;> omega
  have hr : addSz ((max_len - 3 + 1) / 2) (text.length - max_len + 3)
      = text.length - (max_len - 3) / 2 := by
    rw [addSz_eq (by omega)]; omega
  unfold ShortenStringWithEllipsis
  have h1 : ¬ max_len ≤ kNumCharsEllipsis := by unfold kNumCharsEllipsis; omega
  have h2 : ¬ text.length ≤ max_len := by omega
  simp only [h1, h2, if_false, hcut, hl0, hl, hr]
  have h3 : ¬ text.length - (max_len - 3) / 2 > text.length := by omega
  simp [substr, h3]

lemma RemoveTrailingNewLine_crlf (s : Str) :
    RemoveTrailingNewLine (s ++ ['\r', '\n']) = s ++ ['\r'] := by
  have h : EndsWith (s ++ ['\r', '\n']) ['\n'] = true := by
    have e : s ++ ['\r', '\n'] = (s ++ ['\r']) ++ ['\n'] := by simp
    rw [e]
    simp [EndsWith]
  have e : s ++ ['\r', '\n'] = (s ++ ['\r']) ++ ['\n'] := by simp
  simp only [RemoveTrailingNewLine, h, if_true, pop_back]
  rw [e, List.dropLast_concat]

lemma findAux_bounds (search : Str) :
    ∀ (rest : Str) (i p : Nat), findAux search rest i = some p →
      i ≤ p ∧ (p - i) + search.length ≤ rest.length := by
  intro rest
  induction rest with
  | nil =>
    intro i p h
    unfold findAux at h
    split at h
    · rename_i hs
      have : search = [] := by simpa using hs
      subst this
      simp only [Option.some.injEq] at h
      subst h
      simp
    · cases h
  | cons c tl ih =>
    intro i p h
    unfold findAux at h
    split at h
    · rename_i hp
      simp only [Option.some.injEq] at h
      subst h
      have hpre : search <+: (c :: tl) := List.isPrefixOf_iff_prefix.mp hp
      have := hpre.length_le
      simpa using this
    · have := ih (i + 1) p h
      simp only [List.length_cons]
      omega

lemma find_bounds {subject search : Str} {pos p : Nat}
    (h : find subject search pos = some p) :
    pos ≤ p ∧ p + search.length ≤ subject.length := by
  unfold find at h
  split at h
  · cases h
  · rename_i hpos
    have := findAux_bounds search _ _ _ h
    simp only [List.length_drop] at this
    omega

lemma replaceAt_length {subject : Str} {p len : Nat} (str : Str)
    (h : p + len ≤ subject.length) :
    (replaceAt subject p len str).length = subject.length - len + str.length := by
  simp only [replaceAt, List.length_append, List.length_take, List.length_drop]
  omega

lemma ReplaceLoop_terminates (search replace : Str) (hs : search ≠ []) :
    ∀ (fuel : Nat) (subject : Str) (pos : Nat), subject.length - pos < fuel →
      ∃ r, ReplaceLoop search replace fuel subject pos = some r := by
  have hlen : 0 < search.length := List.length_pos.mpr hs
  intro fuel
  induction fuel with
  | zero => intro subject pos h; omega
  | succ n ih =>
    intro subject pos h
    unfold ReplaceLoop
    cases hf : find subject search pos with
    | none => exact ⟨subject, rfl⟩
    | some p =>
      have hb := find_bounds hf
      simp only
      apply ih
      rw [replaceAt_length replace hb.2]
      omega

lemma InPlaceLoop_eq_ReplaceLoop (search replace : Str) (hr : replace ≠ []) :
    ∀ (fuel : Nat) (subject : Str) (pos : Nat),
      ReplaceStringInPlaceLoop (StrRef.other search) (StrRef.other replace) fuel subject pos =
        ReplaceLoop search replace fuel subject pos := by
  have hlen : 0 < replace.length := List.length_pos.mpr hr
  have hmax : max replace.length 1 = replace.length := max_eq_left hlen
  intro fuel
  induction fuel with
  | zero => intro subject pos; rfl
  | succ n ih =>
    intro subject pos
    unfold ReplaceStringInPlaceLoop ReplaceLoop
    simp only [StrRef.read]
    cases find subject search pos with
    | none => rfl
    | some p => simp only [hmax]; exact ih _ _

lemma find_self (s : Str) (hs : s ≠ []) : find s s 0 = some 0 := by
  cases s with
  | nil => exact absurd rfl hs
  | cons c tl =>
    have hp : (c :: tl).isPrefixOf (c :: tl) = true :=
      List.isPrefixOf_iff_prefix.mpr (List.prefix_refl _)
    simp [find, findAux, hp]

lemma find_at_end (subject search : Str) (hs : search ≠ []) :
    find subject search subject.length = none := by
  cases search with
  | nil => exact absurd rfl hs
  | cons c tl => simp [find, findAux]

lemma replaceAt_whole (s r : Str) : replaceAt s 0 s.length r = r := by
  simp [replaceAt]

/-- With `search` the subject itself and `replace` another, non-empty string, both
loops replace the whole subject once and stop. -/
lemma InPlace_search_aliased (fuel : Nat) (subject replace : Str)
    (hs : subject ≠ []) (hr : replace ≠ []) (hfuel : subject.length < fuel) :
    ReplaceStringInPlace fuel subject StrRef.subject (StrRef.other replace) = some replace ∧
      Replace fuel subject subject replace = some replace := by
  have hlen : 0 < subject.length := List.length_pos.mpr hs
  have hrlen : 0 < replace.length := List.length_pos.mpr hr
  have hmax : max replace.length 1 = replace.length := max_eq_left hrlen
  obtain ⟨n, rfl⟩ : ∃ n, fuel = n + 2 := ⟨fuel - 2, by omega⟩
  constructor
  · simp only [ReplaceStringInPlace, ReplaceStringInPlaceLoop, StrRef.read, find_self subject hs,
      replaceAt_whole, Nat.zero_add, hmax, find_at_end replace replace hr]
  · simp only [Replace, ReplaceLoop, find_self subject hs, replaceAt_whole, Nat.zero_add,
      find_at_end replace subject hs]

/-- With `search` and `replace` both the subject itself, both loops replace the
whole subject by itself once and stop. -/
lemma InPlace_both_aliased (fuel : Nat) (subject : Str)
    (hs : subject ≠ []) (hfuel : subject.length < fuel) :
    ReplaceStringInPlace fuel subject StrRef.subject StrRef.subject = some subject ∧
      Replace fuel subject subject subject = some subject := by
  have hlen : 0 < subject.length := List.length_pos.mpr hs
  have hmax : max subject.length 1 = subject.length := max_eq_left hlen
  obtain ⟨n, rfl⟩ : ∃ n, fuel = n + 2 := ⟨fuel - 2, by omega⟩
  constructor
  · simp only [ReplaceStringInPlace, ReplaceStringInPlaceLoop, StrRef.read, find_self subject hs,
      replaceAt_whole, Nat.zero_add, hmax, find_at_end subject subject hs]
  · simp only [Replace, ReplaceLoop, find_self subject hs, replaceAt_whole, Nat.zero_add,
      find_at_end subject subject hs]

end Orbit

namespace Orbit

/-! ## Claims on the string helpers -/

/-- C7: for `max_len > 3` and a text longer than `max_len`,
`ShortenStringWithEllipsis` returns (no `substr` call throws) a string of length
exactly `max_len`: the first `ceil((max_len - 3) / 2)` characters of the text,
then `"..."`, then the last `floor((max_len - 3) / 2)` characters. -/
theorem ShortenStringWithEllipsis_middle (text : Str) (max_len : Nat)
    (hmax : 3 < max_len) (hlen : max_len < text.length) (hsz : text.length < SIZE_MOD) :
    ∃ r, ShortenStringWithEllipsis text max_len = some r ∧
      r.length = max_len ∧
      r = text.take ((max_len - 3 + 1) / 2) ++ ['.', '.', '.'] ++
        text.drop (text.length - (max_len - 3) / 2) ∧
      (text.take ((max_len - 3 + 1) / 2)).length = (max_len - 3 + 1) / 2 ∧
      (text.drop (text.length - (max_len - 3) / 2)).length = (max_len - 3) / 2 := by
  refine ⟨_, shorten_long text max_len hmax hlen hsz, ?_, rfl, ?_, ?_⟩
  · simp only [List.length_append, List.length_take, List.length_drop, List.length_cons,
      List.length_nil]
    omega
  · simp only [List.length_take]
    omega
  · simp only [List.length_drop]
    omega

/-- C7, at the input of the claim: `("abcdefghij", 8)` gives `"abc...ij"`. -/
theorem ShortenStringWithEllipsis_middle_witness :
    ShortenStringWithEllipsis "abcdefghij".toList 8 = some "abc...ij".toList := by
  obtain ⟨r, h, _, hr, _, _⟩ :=
    ShortenStringWithEllipsis_middle "abcdefghij".toList 8 (by decide) (by decide) (by decide)
  rw [h, hr]
  decide

/-- C8, as stated, fails: with `max_len = 0` the text `"abcd"` is shortened to
`"..."`, which is longer than `max_len`. -/
theorem ShortenStringWithEllipsis_exceeds_max_len :
    ShortenStringWithEllipsis "abcd".toList 0 = some "...".toList ∧
      ¬ ("...".toList.length ≤ 0) := by
  decide

/-- C8, amended: `ShortenStringWithEllipsis` always returns a string. For
`max_len ≥ 3` its length is at most `max_len`. For `max_len < 3` it is the text
itself when the text has at most 3 characters and `"..."` otherwise, so its
length is at most 3. In every case it is the text itself whenever
`text.length() <= max_len`. -/
theorem ShortenStringWithEllipsis_length_le (text : Str) (max_len : Nat)
    (hsz : text.length < SIZE_MOD) :
    ∃ r, ShortenStringWithEllipsis text max_len = some r ∧
      (3 ≤ max_len → r.length ≤ max_len) ∧
      (max_len < 3 → r = if text.length ≤ 3 then text else ['.', '.', '.']) ∧
      (max_len < 3 → r.length ≤ 3) ∧
      (text.length ≤ max_len → r = text) := by
  by_cases h1 : max_len ≤ 3
  · refine ⟨if text.length ≤ 3 then text else ['.', '.', '.'], ?_, ?_, fun _ => rfl, ?_, ?_⟩
    · simp [ShortenStringWithEllipsis, kNumCharsEllipsis, h1]
    · intro h3
      have h3' : max_len = 3 := le_antisymm h1 h3
      subst h3'
      split
      · assumption
      · simp
    · intro _
      split
      · assumption
      · simp
    · intro h
      have : text.length ≤ 3 := le_trans h h1
      simp [this]
  · by_cases h2 : text.length ≤ max_len
    · refine ⟨text, ?_, fun _ => h2, fun h => absurd (le_of_lt h) h1, fun h => by omega,
        fun _ => rfl⟩
      simp [ShortenStringWithEllipsis, kNumCharsEllipsis, h1, h2]
    · refine ⟨_, shorten_long text max_len (by omega) (by omega) hsz, ?_,
        fun h => by omega, fun h => by omega, fun h => absurd h h2⟩
      intro _
      simp only [List.length_append, List.length_take, List.length_drop, List.length_cons,
        List.length_nil]
      omega

/-- C8, amended, at `("abcd", 0)`: the result is `"..."`. -/
theorem ShortenStringWithEllipsis_length_le_witness :
    ShortenStringWithEllipsis "abcd".toList 0 = some "...".toList := by
  obtain ⟨r, h, _, hr, _, _⟩ :=
    ShortenStringWithEllipsis_length_le "abcd".toList 0 (by decide)
  rw [h, hr (by decide)]
  decide

/-- C9, as stated, fails for an empty replacement: on `"abab"` with search `"ab"`
`Replace` removes both occurrences while `ReplaceStringInPlace` steps over the
second one. It also fails when `replace` is the subject object itself: on
`s = "aa"`, `ReplaceStringInPlace(s, "a", s)` leaves `"aaa"`, the replacement
having grown with the subject, while `Replace(s, "a", s)` returns `"aaaa"`. -/
theorem Replace_ne_ReplaceStringInPlace :
    (Replace 5 "abab".toList "ab".toList [] = some [] ∧
      ReplaceStringInPlace 5 "abab".toList (StrRef.other "ab".toList) (StrRef.other []) =
        some "ab".toList) ∧
    (Replace 5 "aa".toList "a".toList "aa".toList = some "aaaa".toList ∧
      ReplaceStringInPlace 5 "aa".toList (StrRef.other "a".toList) StrRef.subject =
        some "aaa".toList) := by
  decide

/-- C9, amended: for every subject, every non-empty search and every non-empty
replacement, each of them another string or the subject object itself, but not
the replacement alone being the subject object, `ReplaceStringInPlace` and
`Replace` both terminate (any fuel above the length of the subject is enough)
and leave the same string. -/
theorem ReplaceStringInPlace_eq_Replace (fuel : Nat) (subject : Str)
    (search replace : StrRef)
    (hs : search.read subject ≠ []) (hr : replace.read subject ≠ [])
    (halias : replace = StrRef.subject → search = StrRef.subject)
    (hfuel : subject.length < fuel) :
    ∃ r, ReplaceStringInPlace fuel subject search replace = some r ∧
      Replace fuel subject (search.read subject) (replace.read subject) = some r := by
  cases replace with
  | subject =>
    have hsearch := halias rfl
    subst hsearch
    simp only [StrRef.read] at hs ⊢
    exact ⟨subject, InPlace_both_aliased fuel subject hs hfuel⟩
  | other text =>
    cases search with
    | subject =>
      simp only [StrRef.read] at hs hr ⊢
      exact ⟨text, InPlace_search_aliased fuel subject text hs hr hfuel⟩
    | other value =>
      simp only [StrRef.read] at hs hr ⊢
      obtain ⟨r, h⟩ := ReplaceLoop_terminates value text hs fuel subject 0 (by omega)
      refine ⟨r, ?_, h⟩
      unfold ReplaceStringInPlace
      rw [InPlaceLoop_eq_ReplaceLoop value text hr]
      exact h

/-- C9, amended, at `("a:b:c", ":", "--")`. -/
theorem ReplaceStringInPlace_eq_Replace_witness :
    ∃ r, ReplaceStringInPlace 6 "a:b:c".toList (StrRef.other ":".toList)
        (StrRef.other "--".toList) = some r ∧
      Replace 6 "a:b:c".toList ":".toList "--".toList = some r :=
  ReplaceStringInPlace_eq_Replace 6 "a:b:c".toList (StrRef.other ":".toList)
    (StrRef.other "--".toList) (by decide) (by decide) (by decide) (by decide)

/-- C10: on `"abc\r\n"` the code removes only the `'\n'` and leaves `"abc\r"`;
the branch for `"\r\n"` is never reached. -/
theorem RemoveTrailingNewLine_crlf_keeps_cr :
    RemoveTrailingNewLine "abc\r\n".toList = "abc\r".toList ∧
      RemoveTrailingNewLine "abc\r\n".toList ≠ "abc".toList := by
  decide

end Orbit

namespace Orbit

/-! ## Facts about the controller -/

section ControllerFacts

variable {R D S : Type}

@[simp] lemma notify_listener (c : Controller D S) (call : ListenerCall D) :
    (c.notify call).listener = c.listener ++ tagged c.session [call] := rfl

@[simp] lemma notify_state (c : Controller D S) (call : ListenerCall D) :
    (c.notify call).state = c.state := rfl

@[simp] lemma notify_session (c : Controller D S) (call : ListenerCall D) :
    (c.notify call).session = c.session := rfl

@[simp] lemma notify_event_processor (c : Controller D S) (call : ListenerCall D) :
    (c.notify call).event_processor_ = c.event_processor_ := rfl

@[simp] lemma notify_transport (c : Controller D S) (call : ListenerCall D) :
    (c.notify call).transport = c.transport := rfl

@[simp] lemma deliver_listener (c : Controller D S) (batch : List D) :
    (c.deliver batch).listener = c.listener ++ tagged c.session (batchCalls batch) := by
  unfold Controller.deliver batchCalls
  split <;> simp [tagged]

@[simp] lemma deliver_state (c : Controller D S) (batch : List D) :
    (c.deliver batch).state = c.state := by
  unfold Controller.deliver
  split <;> simp

@[simp] lemma deliver_session (c : Controller D S) (batch : List D) :
    (c.deliver batch).session = c.session := by
  unfold Controller.deliver
  split <;> simp

@[simp] lemma deliver_event_processor (c : Controller D S) (batch : List D) :
    (c.deliver batch).event_processor_ = c.event_processor_ := by
  unfold Controller.deliver
  split <;> simp

@[simp] lemma deliver_transport (c : Controller D S) (batch : List D) :
    (c.deliver batch).transport = c.transport := by
  unfold Controller.deliver
  split <;> simp

@[simp] lemma flush_listener (P : Processor R D S) (c : Controller D S) :
    (c.flush P).listener = c.listener ++ tagged c.session (flushCalls P c.event_processor_) := by
  unfold Controller.flush flushCalls
  split <;> simp_all [tagged]

@[simp] lemma flush_state (P : Processor R D S) (c : Controller D S) :
    (c.flush P).state = c.state := by
  unfold Controller.flush
  split <;> simp

@[simp] lemma flush_session (P : Processor R D S) (c : Controller D S) :
    (c.flush P).session = c.session := by
  unfold Controller.flush
  split <;> simp

@[simp] lemma flush_transport (P : Processor R D S) (c : Controller D S) :
    (c.flush P).transport = c.transport := by
  unfold Controller.flush
  split <;> simp

@[simp] lemma finish_listener (P : Processor R D S) (c : Controller D S) (t f : Bool) :
    (c.finish P t f).listener = c.listener ++
      tagged c.session (flushCalls P c.event_processor_ ++ [ListenerCall.OnFinished t]) := by
  simp [Controller.finish, tagged]

@[simp] lemma finish_state (P : Processor R D S) (c : Controller D S) (t f : Bool) :
    (c.finish P t f).state = State.Finished := rfl

@[simp] lemma finish_session (P : Processor R D S) (c : Controller D S) (t f : Bool) :
    (c.finish P t f).session = c.session := by
  simp [Controller.finish]

@[simp] lemma fail_listener (P : Processor R D S) (c : Controller D S) (k : ErrorKind) :
    (c.fail P k).listener = c.listener ++
      tagged c.session (flushCalls P c.event_processor_ ++ [ListenerCall.OnError k]) := by
  simp [Controller.fail, tagged]

@[simp] lemma fail_state (P : Processor R D S) (c : Controller D S) (k : ErrorKind) :
    (c.fail P k).state = State.Error := rfl

@[simp] lemma fail_session (P : Processor R D S) (c : Controller D S) (k : ErrorKind) :
    (c.fail P k).session = c.session := by
  simp [Controller.fail]

lemma delivered_append (a b : List (Nat × ListenerCall D)) :
    delivered (a ++ b) = delivered a ++ delivered b := by
  induction a with
  | nil => rfl
  | cons e rest ih => simp [delivered, ih]

@[simp] lemma delivered_batchCalls (s : Nat) (batch : List D) :
    delivered (tagged s (batchCalls batch)) = batch := by
  unfold batchCalls
  split
  · rename_i h
    have : batch = [] := by simpa using h
    simp [tagged, delivered, this]
  · simp [tagged, delivered, batchOf]

lemma run_append (P : Processor R D S) (c : Controller D S) (xs ys : List (Input R)) :
    run P c (xs ++ ys) = run P (run P c xs) ys := by
  induction xs generalizing c with
  | nil => rfl
  | cons i rest ih => simp [run, ih]

lemma Grows_refl (c : Controller D S) : Grows c c [] :=
  ⟨[], by simp, rfl⟩

lemma Grows_trans {c₁ c₂ c₃ : Controller D S} {e₁ e₂ : List D}
    (h₁ : Grows c₁ c₂ e₁) (h₂ : Grows c₂ c₃ e₂) : Grows c₁ c₃ (e₁ ++ e₂) := by
  obtain ⟨a₁, hl₁, hd₁⟩ := h₁
  obtain ⟨a₂, hl₂, hd₂⟩ := h₂
  refine ⟨a₁ ++ a₂, ?_, ?_⟩
  · rw [hl₂, hl₁, List.append_assoc]
  · rw [delivered_append, hd₁, hd₂]

lemma receive_events (P : Processor R D S) (c : Controller D S) (raw : R) (ps next : S)
    (batch : List D) (hep : c.event_processor_ = some ps)
    (hP : P.Process ps raw = Decoded.events batch next) :
    (c.receive P raw).state = c.state ∧
      (c.receive P raw).event_processor_ = some next ∧
      Grows c (c.receive P raw) batch := by
  unfold Controller.receive
  simp only [hep, hP]
  refine ⟨by simp, by simp, ⟨tagged c.session (batchCalls batch), by simp, by simp⟩⟩

lemma onResponse_events (P : Processor R D S) (c : Controller D S) (raw : R) (ps next : S)
    (batch : List D) (hc : Receiving c ps)
    (hP : P.Process ps raw = Decoded.events batch next) :
    Receiving (c.onResponse P raw) next ∧ Grows c (c.onResponse P raw) batch := by
  obtain ⟨hact, hep⟩ := hc
  unfold Controller.onResponse
  cases hs : c.state with
  | Starting =>
    simp only
    have h := receive_events P
      (Controller.notify { c with state := State.Capturing } ListenerCall.OnStarted)
      raw ps next batch (by simpa using hep) hP
    obtain ⟨h1, h2, h3⟩ := h
    refine ⟨⟨by rw [h1]; rfl, h2⟩, ?_⟩
    have hg : Grows c
        (Controller.notify { c with state := State.Capturing } ListenerCall.OnStarted) [] :=
      ⟨tagged c.session [ListenerCall.OnStarted], by simp, by simp [tagged, delivered, batchOf]⟩
    simpa using Grows_trans hg h3
  | Capturing =>
    simp only
    obtain ⟨h1, h2, h3⟩ := receive_events P c raw ps next batch hep hP
    exact ⟨⟨by rw [h1, hs]; rfl, h2⟩, h3⟩
  | Stopping =>
    simp only
    obtain ⟨h1, h2, h3⟩ := receive_events P c raw ps next batch hep hP
    exact ⟨⟨by rw [h1, hs]; rfl, h2⟩, h3⟩
  | Idle => rw [hs] at hact; cases hact
  | Finished => rw [hs] at hact; cases hact
  | Error => rw [hs] at hact; cases hact

lemma run_responses (P : Processor R D S) :
    ∀ (rs : List R) (c : Controller D S) (ps last : S) (evs : List D),
      Receiving c ps → decodeAll P ps rs = some (evs, last) →
      Receiving (run P c (rs.map Input.Response)) last ∧
        Grows c (run P c (rs.map Input.Response)) evs := by
  intro rs
  induction rs with
  | nil =>
    intro c ps last evs hc hd
    simp only [decodeAll, Option.some.injEq, Prod.mk.injEq] at hd
    obtain ⟨rfl, rfl⟩ := hd
    exact ⟨hc, Grows_refl c⟩
  | cons raw rest ih =>
    intro c ps last evs hc hd
    unfold decodeAll at hd
    cases hP : P.Process ps raw with
    | events batch next =>
      rw [hP] at hd
      simp only at hd
      cases hrest : decodeAll P next rest with
      | none => rw [hrest] at hd; cases hd
      | some pr =>
        obtain ⟨evs', last'⟩ := pr
        rw [hrest] at hd
        simp only [Option.some.injEq, Prod.mk.injEq] at hd
        obtain ⟨rfl, rfl⟩ := hd
        obtain ⟨h1, h2⟩ := onResponse_events P c raw ps next batch hc hP
        obtain ⟨h3, h4⟩ := ih (c.onResponse P raw) next last' evs' h1 hrest
        exact ⟨h3, Grows_trans h2 h4⟩
    | malformed => rw [hP] at hd; cases hd
    | fatal => rw [hP] at hd; cases hd

lemma decodeAll_append (P : Processor R D S) :
    ∀ (r₁ r₂ : List R) (ps last : S) (evs : List D),
      decodeAll P ps (r₁ ++ r₂) = some (evs, last) →
      ∃ e₁ mid e₂, decodeAll P ps r₁ = some (e₁, mid) ∧
        decodeAll P mid r₂ = some (e₂, last) ∧ evs = e₁ ++ e₂ := by
  intro r₁
  induction r₁ with
  | nil =>
    intro r₂ ps last evs h
    exact ⟨[], ps, evs, rfl, by simpa using h, rfl⟩
  | cons raw rest ih =>
    intro r₂ ps last evs h
    simp only [List.cons_append] at h
    unfold decodeAll at h
    cases hP : P.Process ps raw with
    | events batch next =>
      rw [hP] at h
      simp only at h
      cases hrest : decodeAll P next (rest ++ r₂) with
      | none => rw [hrest] at h; cases h
      | some pr =>
        obtain ⟨evs', last'⟩ := pr
        rw [hrest] at h
        simp only [Option.some.injEq, Prod.mk.injEq] at h
        obtain ⟨rfl, rfl⟩ := h
        obtain ⟨e₁, mid, e₂, h1, h2, rfl⟩ := ih r₂ next last' evs' hrest
        refine ⟨batch ++ e₁, mid, e₂, ?_, h2, by simp⟩
        unfold decodeAll
        rw [hP]
        simp only [h1]
    | malformed => rw [hP] at h; cases h
    | fatal => rw [hP] at h; cases h

lemma StopCapture_receiving (c : Controller D S) (ps : S) (hc : Receiving c ps) :
    Receiving c.StopCapture.1 ps ∧ c.StopCapture.1.listener = c.listener := by
  obtain ⟨hact, hep⟩ := hc
  unfold Controller.StopCapture
  cases hs : c.state <;> simp_all [Receiving, State.active]

lemma onEndOfStream_receiving (P : Processor R D S) (c : Controller D S) (ps : S)
    (hc : Receiving c ps) :
    (c.onEndOfStream P).state = State.Finished ∧
      Grows c (c.onEndOfStream P) (P.Finalize ps) := by
  obtain ⟨hact, hep⟩ := hc
  have hg : ∀ t f, Grows c (c.finish P t f) (P.Finalize ps) := by
    intro t f
    refine ⟨_, finish_listener P c t f, ?_⟩
    simp [hep, flushCalls, tagged, List.map_append, delivered_append, delivered, batchOf]
    have := delivered_batchCalls c.session (P.Finalize ps)
    simpa [tagged] using this
  unfold Controller.onEndOfStream
  cases hs : c.state with
  | Starting => exact ⟨rfl, hg _ _⟩
  | Capturing => exact ⟨rfl, hg _ _⟩
  | Stopping => exact ⟨rfl, hg _ _⟩
  | Idle => rw [hs] at hact; cases hact
  | Finished => rw [hs] at hact; cases hact
  | Error => rw [hs] at hact; cases hact

lemma finish_grows (P : Processor R D S) (c : Controller D S) (ps : S) (t f : Bool)
    (hep : c.event_processor_ = some ps) : Grows c (c.finish P t f) (P.Finalize ps) := by
  refine ⟨_, finish_listener P c t f, ?_⟩
  simp [hep, flushCalls, tagged, List.map_append, delivered_append, delivered, batchOf]
  have := delivered_batchCalls c.session (P.Finalize ps)
  simpa [tagged] using this

lemma fail_grows (P : Processor R D S) (c : Controller D S) (ps : S) (k : ErrorKind)
    (hep : c.event_processor_ = some ps) : Grows c (c.fail P k) (P.Finalize ps) := by
  refine ⟨_, fail_listener P c k, ?_⟩
  simp [hep, flushCalls, tagged, List.map_append, delivered_append, delivered, batchOf]
  have := delivered_batchCalls c.session (P.Finalize ps)
  simpa [tagged] using this

lemma onTransportError_receiving (P : Processor R D S) (c : Controller D S) (ps : S)
    (hc : Receiving c ps) :
    (c.onTransportError P).state = State.Error ∧
      Grows c (c.onTransportError P) (P.Finalize ps) := by
  obtain ⟨hact, hep⟩ := hc
  unfold Controller.onTransportError
  simp only [hact, if_true]
  exact ⟨rfl, fail_grows P c ps _ hep⟩

lemma onGraceElapsed_stopping (P : Processor R D S) (c : Controller D S) (ps : S)
    (hc : Receiving c ps) (hs : c.state = State.Stopping) :
    (c.onGraceElapsed P).state = State.Finished ∧
      Grows c (c.onGraceElapsed P) (P.Finalize ps) := by
  unfold Controller.onGraceElapsed
  rw [hs]
  exact ⟨rfl, finish_grows P c ps _ _ hc.2⟩

lemma onGraceElapsed_other (P : Processor R D S) (c : Controller D S)
    (hs : c.state ≠ State.Stopping) : c.onGraceElapsed P = c := by
  unfold Controller.onGraceElapsed
  cases h : c.state <;> simp_all

lemma step_receiving_unchanged (P : Processor R D S) (c : Controller D S) (ps : S)
    (hc : Receiving c ps) (target : CaptureTarget) (opened : Option Nat) :
    (step P c (Input.StartCapture target opened)).1 = c ∧
      (step P c Input.FinalizePass).1 = c := by
  obtain ⟨hact, _⟩ := hc
  have hne : c.state ≠ State.Idle := by
    intro h
    rw [h] at hact
    cases hact
  refine ⟨by simp [step, Controller.StartCapture, hne], ?_⟩
  simp only [step, Controller.finalizePass]
  cases h : c.state <;> simp_all [State.active]

/-- While a session is in progress, inputs that cannot end it leave it in
progress, and the listener receives exactly the decoded RawEvents. -/
lemma run_body (P : Processor R D S) :
    ∀ (body : List (Input R)) (c : Controller D S) (ps last : S) (evs : List D),
      Receiving c ps →
      (∀ i ∈ body, i ≠ Input.EndOfStream ∧ i ≠ Input.TransportError ∧
        i ≠ Input.GraceElapsed) →
      decodeAll P ps (rawsOf body) = some (evs, last) →
      Receiving (run P c body) last ∧ Grows c (run P c body) evs := by
  intro body
  induction body with
  | nil =>
    intro c ps last evs hc _ hd
    simp only [rawsOf, decodeAll, Option.some.injEq, Prod.mk.injEq] at hd
    obtain ⟨rfl, rfl⟩ := hd
    exact ⟨hc, Grows_refl c⟩
  | cons i rest ih =>
    intro c ps last evs hc hbody hd
    have hrest : ∀ j ∈ rest, j ≠ Input.EndOfStream ∧ j ≠ Input.TransportError ∧
        j ≠ Input.GraceElapsed := fun j hj => hbody j (List.mem_cons_of_mem i hj)
    have hi := hbody i (List.mem_cons_self i rest)
    cases i with
    | StartCapture target opened =>
      have hsame := (step_receiving_unchanged P c ps hc target opened).1
      simp only [run, hsame]
      exact ih c ps last evs hc hrest hd
    | FinalizePass =>
      have hsame := (step_receiving_unchanged P c ps hc sampleTarget none).2
      simp only [run, hsame]
      exact ih c ps last evs hc hrest hd
    | StopCapture =>
      obtain ⟨h1, h2⟩ := StopCapture_receiving c ps hc
      obtain ⟨h3, h4⟩ := ih c.StopCapture.1 ps last evs h1 hrest hd
      refine ⟨h3, ?_⟩
      have hg : Grows c c.StopCapture.1 [] := ⟨[], by simp [h2], rfl⟩
      simpa using Grows_trans hg h4
    | Response raw =>
      simp only [rawsOf] at hd
      unfold decodeAll at hd
      cases hP : P.Process ps raw with
      | events batch next =>
        rw [hP] at hd
        simp only at hd
        cases hdec : decodeAll P next (rawsOf rest) with
        | none => rw [hdec] at hd; cases hd
        | some pr =>
          obtain ⟨evs', last'⟩ := pr
          rw [hdec] at hd
          simp only [Option.some.injEq, Prod.mk.injEq] at hd
          obtain ⟨rfl, rfl⟩ := hd
          obtain ⟨h1, h2⟩ := onResponse_events P c raw ps next batch hc hP
          obtain ⟨h3, h4⟩ := ih (c.onResponse P raw) next last' evs' h1 hrest hdec
          exact ⟨h3, Grows_trans h2 h4⟩
      | malformed => rw [hP] at hd; cases hd
      | fatal => rw [hP] at hd; cases hd
    | EndOfStream => exact absurd rfl hi.1
    | TransportError => exact absurd rfl hi.2.1
    | GraceElapsed => exact absurd rfl hi.2.2

lemma batchCalls_cases (batch : List D) :
    batchCalls batch = [] ∨ batchCalls batch = [ListenerCall.OnEvents batch] := by
  unfold batchCalls
  split <;> simp

lemma flushCalls_cases (P : Processor R D S) (ep : Option S) :
    flushCalls P ep = [] ∨ ∃ b, flushCalls P ep = [ListenerCall.OnEvents b] := by
  cases ep with
  | none => exact Or.inl rfl
  | some ps =>
    rcases batchCalls_cases (P.Finalize ps) with h | h
    · exact Or.inl h
    · exact Or.inr ⟨_, h⟩

lemma flush_end_shape (P : Processor R D S) (ep : Option S) (e : ListenerCall D)
    (he : e.isEnd = true) :
    Tame (flushCalls P ep ++ [e]) ∧ endsIn (flushCalls P ep ++ [e]) = 1 := by
  rcases flushCalls_cases P ep with h | ⟨b, h⟩
  · rw [h]; simp [Tame, endsIn, he]
  · have hb : (ListenerCall.OnEvents b).isEnd = false := rfl
    rw [h]; simp [Tame, endsIn, he, hb]

lemma StepShape_of_same_log {c c' : Controller D S} (hs : c'.session = c.session)
    (hl : c'.listener = c.listener) (ha : c'.state.active = c.state.active) :
    StepShape c c' := by
  refine ⟨hs, [], by simp [hl, tagged], by simp [Tame], ?_, ?_⟩
  · rw [ha]
    cases c.state.active <;> simp [endsIn]
  · intro h
    exact ⟨rfl, by rw [ha, h]⟩

lemma StepShape_refl (c : Controller D S) : StepShape c c :=
  StepShape_of_same_log rfl rfl rfl

lemma finish_shape (P : Processor R D S) (c : Controller D S) (t f : Bool)
    (hact : c.state.active = true) : StepShape c (c.finish P t f) := by
  obtain ⟨h1, h2⟩ := flush_end_shape P c.event_processor_ (ListenerCall.OnFinished t) rfl
  have hfin : (c.finish P t f).state.active = false := rfl
  refine ⟨by simp, _, finish_listener P c t f, h1, ?_, ?_⟩
  · rw [h2, hact, hfin]; simp
  · intro h; rw [hact] at h; cases h

lemma fail_shape (P : Processor R D S) (c : Controller D S) (k : ErrorKind)
    (hact : c.state.active = true) : StepShape c (c.fail P k) := by
  obtain ⟨h1, h2⟩ := flush_end_shape P c.event_processor_ (ListenerCall.OnError k) rfl
  have hfin : (c.fail P k).state.active = false := rfl
  refine ⟨by simp, _, fail_listener P c k, h1, ?_, ?_⟩
  · rw [h2, hact, hfin]; simp
  · intro h; rw [hact] at h; cases h

lemma receive_shape (P : Processor R D S) (c : Controller D S) (raw : R)
    (hact : c.state.active = true) : StepShape c (c.receive P raw) := by
  unfold Controller.receive
  cases hep : c.event_processor_ with
  | none => exact StepShape_refl c
  | some ps =>
    simp only
    cases hP : P.Process ps raw with
    | events batch next =>
      simp only
      refine ⟨by simp, batchCalls batch, by simp, ?_, ?_, ?_⟩
      · rcases batchCalls_cases batch with h | h <;> rw [h] <;> simp [Tame]
      · rcases batchCalls_cases batch with h | h <;> rw [h] <;>
          simp [endsIn, hact, ListenerCall.isEnd]
      · intro h; rw [hact] at h; cases h
    | malformed =>
      exact StepShape_of_same_log rfl rfl rfl
    | fatal =>
      simp only
      obtain ⟨h1, h2⟩ :=
        flush_end_shape P (some ps) (ListenerCall.OnError ErrorKind.ProtocolViolation) rfl
      refine ⟨by simp, _, by simp, h1, ?_, ?_⟩
      · rw [h2, hact, fail_state]; simp [State.active]
      · intro h; rw [hact] at h; cases h

lemma onResponse_shape (P : Processor R D S) (c : Controller D S) (raw : R) :
    StepShape c (c.onResponse P raw) := by
  unfold Controller.onResponse
  cases hs : c.state with
  | Starting =>
    simp only
    obtain ⟨h1, calls, h2, h3, h4, _⟩ := receive_shape P
      (Controller.notify { c with state := State.Capturing } ListenerCall.OnStarted) raw rfl
    refine ⟨by simpa using h1, ListenerCall.OnStarted :: calls, ?_, ?_, ?_, ?_⟩
    · rw [h2]; simp [tagged]
    · unfold Tame at h3 ⊢
      refine List.pairwise_cons.mpr ⟨?_, h3⟩
      intro b _ hb
      simp [ListenerCall.isEnd] at hb
    · have e1 : endsIn (ListenerCall.OnStarted :: calls) = endsIn calls := by
        simp [endsIn, ListenerCall.isEnd]
      have a1 : c.state.active = true := by rw [hs]; rfl
      have a2 : (Controller.notify { c with state := State.Capturing }
          ListenerCall.OnStarted).state.active = true := rfl
      rw [e1, h4, a1, a2]
    · intro h; rw [hs] at h; simp [State.active] at h
  | Capturing => exact receive_shape P c raw (by rw [hs]; rfl)
  | Stopping => exact receive_shape P c raw (by rw [hs]; rfl)
  | Idle => exact StepShape_refl c
  | Finished => exact StepShape_refl c
  | Error => exact StepShape_refl c

lemma onEndOfStream_shape (P : Processor R D S) (c : Controller D S) :
    StepShape c (c.onEndOfStream P) := by
  unfold Controller.onEndOfStream
  cases hs : c.state with
  | Starting => exact finish_shape P c _ _ (by rw [hs]; rfl)
  | Capturing => exact finish_shape P c _ _ (by rw [hs]; rfl)
  | Stopping => exact finish_shape P c _ _ (by rw [hs]; rfl)
  | Idle => exact StepShape_refl c
  | Finished => exact StepShape_refl c
  | Error => exact StepShape_refl c

lemma onTransportError_shape (P : Processor R D S) (c : Controller D S) :
    StepShape c (c.onTransportError P) := by
  unfold Controller.onTransportError
  split
  · rename_i h; exact fail_shape P c _ h
  · exact StepShape_refl c

lemma onGraceElapsed_shape (P : Processor R D S) (c : Controller D S) :
    StepShape c (c.onGraceElapsed P) := by
  unfold Controller.onGraceElapsed
  cases hs : c.state with
  | Stopping => exact finish_shape P c _ _ (by rw [hs]; rfl)
  | Starting => exact StepShape_refl c
  | Capturing => exact StepShape_refl c
  | Idle => exact StepShape_refl c
  | Finished => exact StepShape_refl c
  | Error => exact StepShape_refl c

lemma finalizePass_shape (c : Controller D S) : StepShape c c.finalizePass := by
  unfold Controller.finalizePass
  cases hs : c.state with
  | Finished => exact StepShape_of_same_log rfl rfl (by simp [hs, State.active])
  | Error => exact StepShape_of_same_log rfl rfl (by simp [hs, State.active])
  | Starting => exact StepShape_refl c
  | Capturing => exact StepShape_refl c
  | Idle => exact StepShape_refl c
  | Stopping => exact StepShape_refl c

lemma StopCapture_shape (c : Controller D S) : StepShape c c.StopCapture.1 := by
  unfold Controller.StopCapture
  cases hs : c.state with
  | Capturing => exact StepShape_of_same_log rfl rfl (by simp [hs, State.active])
  | Finished => exact StepShape_refl c
  | Error => exact StepShape_refl c
  | Starting => exact StepShape_refl c
  | Idle => exact StepShape_refl c
  | Stopping => exact StepShape_refl c

/-- A `StartCapture` either changes nothing or starts the next session from
`Idle`, without touching the listener log. -/
lemma StartCapture_cases (P : Processor R D S) (c : Controller D S)
    (target : CaptureTarget) (opened : Option Nat) :
    StepShape c (c.StartCapture P target opened).1 ∨
      (c.state.active = false ∧
        (c.StartCapture P target opened).1.state.active = true ∧
        (c.StartCapture P target opened).1.session = c.session + 1 ∧
        (c.StartCapture P target opened).1.listener = c.listener) := by
  by_cases hs : c.state = State.Idle
  · by_cases ht : target.selected_functions.isEmpty = true
    · left
      have e : (c.StartCapture P target opened).1 = c := by
        simp [Controller.StartCapture, hs, ht]
      rw [e]
      exact StepShape_refl c
    · cases opened with
      | none =>
        left
        have e : (c.StartCapture P target none).1 =
            { c with transport := c.transport ++ [TransportCall.Open target.pid] } := by
          simp [Controller.StartCapture, hs, ht]
        rw [e]
        exact StepShape_of_same_log rfl rfl rfl
      | some handle =>
        right
        simp [Controller.StartCapture, hs, ht, State.active]
  · left
    have e : (c.StartCapture P target opened).1 = c := by
      simp [Controller.StartCapture, hs]
    rw [e]
    exact StepShape_refl c

/-- Every step is of one of the two kinds. -/
lemma step_cases (P : Processor R D S) (c : Controller D S) (i : Input R) :
    StepShape c (step P c i).1 ∨
      (c.state.active = false ∧ (step P c i).1.state.active = true ∧
        (step P c i).1.session = c.session + 1 ∧ (step P c i).1.listener = c.listener) := by
  cases i with
  | StartCapture target opened => exact StartCapture_cases P c target opened
  | StopCapture => exact Or.inl (StopCapture_shape c)
  | Response raw => exact Or.inl (onResponse_shape P c raw)
  | EndOfStream => exact Or.inl (onEndOfStream_shape P c)
  | TransportError => exact Or.inl (onTransportError_shape P c)
  | GraceElapsed => exact Or.inl (onGraceElapsed_shape P c)
  | FinalizePass => exact Or.inl (finalizePass_shape c)

lemma endsIn_eq_zero {calls : List (ListenerCall D)} (h : endsIn calls = 0) :
    ∀ x ∈ calls, x.isEnd = false := by
  induction calls with
  | nil => intro x hx; cases hx
  | cons call rest ih =>
    intro x hx
    simp only [endsIn] at h
    have h1 : (if call.isEnd = true then 1 else 0) = 0 := by omega
    have h2 : endsIn rest = 0 := by omega
    rcases List.mem_cons.mp hx with rfl | hx'
    · by_contra hne
      have : x.isEnd = true := by simpa using hne
      simp [this] at h1
    · exact ih h2 x hx'

lemma mem_tagged {s : Nat} {calls : List (ListenerCall D)} {e : Nat × ListenerCall D}
    (h : e ∈ tagged s calls) : e.1 = s ∧ e.2 ∈ calls := by
  unfold tagged at h
  obtain ⟨x, hx, rfl⟩ := List.mem_map.mp h
  exact ⟨rfl, hx⟩

lemma LogInv_of_shape {c c' : Controller D S} (hinv : LogInv c) (hsh : StepShape c c') :
    LogInv c' := by
  obtain ⟨hpw, hle, hact⟩ := hinv
  obtain ⟨hses, calls, hlog, htame, hends, hidle⟩ := hsh
  have hactive : c'.state.active = true → c.state.active = true := by
    intro h
    by_contra hn
    have hn' : c.state.active = false := by simpa using hn
    rw [(hidle hn').2] at h
    cases h
  refine ⟨?_, ?_, ?_⟩
  · rw [hlog, List.pairwise_append]
    refine ⟨hpw, ?_, ?_⟩
    · unfold tagged
      rw [List.pairwise_map]
      exact htame.imp (fun {a b} hab h => hab ⟨h.2.1, h.2.2⟩)
    · intro a ha b hb h
      obtain ⟨hb1, hb2⟩ := mem_tagged hb
      cases hc : c.state.active with
      | false =>
        rw [(hidle hc).1] at hb2
        cases hb2
      | true =>
        have hno := hact hc a ha (by rw [h.1, hb1])
        have hyes : a.2.isEnd = true := h.2.1
        rw [hno] at hyes
        cases hyes
  · intro e he
    rw [hlog] at he
    rw [hses]
    rcases List.mem_append.mp he with h | h
    · exact hle e h
    · exact le_of_eq (mem_tagged h).1
  · intro hc' e he hes
    rw [hlog] at he
    rw [hses] at hes
    have hc := hactive hc'
    rcases List.mem_append.mp he with h | h
    · exact hact hc e h hes
    · have h0 : endsIn calls = 0 := by
        rw [hends]
        simp [hc']
      exact endsIn_eq_zero h0 e.2 (mem_tagged h).2

lemma LogInv_step (P : Processor R D S) (c : Controller D S) (i : Input R)
    (hinv : LogInv c) : LogInv (step P c i).1 := by
  rcases step_cases P c i with h | ⟨_, _, hses, hlog⟩
  · exact LogInv_of_shape hinv h
  · obtain ⟨hpw, hle, _⟩ := hinv
    refine ⟨by rw [hlog]; exact hpw, ?_, ?_⟩
    · intro e he
      rw [hlog] at he
      rw [hses]
      exact Nat.le_succ_of_le (hle e he)
    · intro _ e he hes
      rw [hlog] at he
      rw [hses] at hes
      have := hle e he
      omega

lemma LogInv_run (P : Processor R D S) :
    ∀ (inputs : List (Input R)) (c : Controller D S), LogInv c → LogInv (run P c inputs) := by
  intro inputs
  induction inputs with
  | nil => intro c h; exact h
  | cons i rest ih => intro c h; exact ih _ (LogInv_step P c i h)

lemma LogInv_initial : LogInv (Controller.initial D S) := by
  refine ⟨List.Pairwise.nil, ?_, ?_⟩
  · intro e he; cases he
  · intro _ e he; cases he

lemma endCount_append (s : Nat) (a b : List (Nat × ListenerCall D)) :
    endCount s (a ++ b) = endCount s a + endCount s b := by
  induction a with
  | nil => simp [endCount]
  | cons e rest ih => simp [endCount, ih, Nat.add_assoc]

lemma endCount_tagged (s s' : Nat) (calls : List (ListenerCall D)) :
    endCount s (tagged s' calls) = if s' = s then endsIn calls else 0 := by
  induction calls with
  | nil => simp [tagged, endCount, endsIn]
  | cons call rest ih =>
    unfold tagged at ih ⊢
    simp only [List.map_cons, endCount, endsIn, ih]
    by_cases h : s' = s <;> simp [h]

/-- Once the session `s` is over, its number of ending calls stays. -/
lemma endCount_over (P : Processor R D S) (s : Nat) :
    ∀ (later : List (Input R)) (c : Controller D S),
      (s < c.session ∨ (c.session = s ∧ c.state.active = false)) →
      endCount s (run P c later).listener = endCount s c.listener ∧
        (s < (run P c later).session ∨
          ((run P c later).session = s ∧ (run P c later).state.active = false)) := by
  intro later
  induction later with
  | nil => intro c h; exact ⟨rfl, h⟩
  | cons i rest ih =>
    intro c h
    simp only [run]
    rcases step_cases P c i with ⟨hses, calls, hlog, _, _, hidle⟩ | ⟨_, _, hses, hlog⟩
    · have hover : s < (step P c i).1.session ∨
          ((step P c i).1.session = s ∧ (step P c i).1.state.active = false) := by
        rcases h with h | ⟨h1, h2⟩
        · left; rw [hses]; exact h
        · right; exact ⟨by rw [hses, h1], (hidle h2).2⟩
      obtain ⟨h1, h2⟩ := ih _ hover
      refine ⟨?_, h2⟩
      rw [h1, hlog, endCount_append, endCount_tagged]
      rcases h with h | ⟨h1, h2⟩
      · have : c.session ≠ s := by omega
        simp [this]
      · rw [(hidle h2).1]
        simp [endsIn]
    · have hover : s < (step P c i).1.session ∨
          ((step P c i).1.session = s ∧ (step P c i).1.state.active = false) := by
        left
        rw [hses]
        rcases h with h | ⟨h1, _⟩ <;> omega
      obtain ⟨h1, h2⟩ := ih _ hover
      exact ⟨by rw [h1, hlog], h2⟩

/-- A session in progress gets exactly one ending call, at the moment it ends. -/
lemma endCount_active (P : Processor R D S) :
    ∀ (later : List (Input R)) (c : Controller D S), c.state.active = true →
      endCount c.session (run P c later).listener =
        endCount c.session c.listener +
          (if (run P c later).session = c.session ∧ (run P c later).state.active = true
            then 0 else 1) := by
  intro later
  induction later with
  | nil => intro c h; simp [run, h]
  | cons i rest ih =>
    intro c h
    simp only [run]
    rcases step_cases P c i with ⟨hses, calls, hlog, _, hends, _⟩ | ⟨hc, _, _, _⟩
    · cases hact : (step P c i).1.state.active with
      | true =>
        have := ih _ hact
        rw [hses] at this
        rw [this, hlog, endCount_append, endCount_tagged, hends]
        simp [hact]
      | false =>
        obtain ⟨h1, h2⟩ := endCount_over P c.session rest (step P c i).1 (Or.inr ⟨hses, hact⟩)
        rw [h1, hlog, endCount_append, endCount_tagged, hends]
        have hne : ¬ ((run P (step P c i).1 rest).session = c.session ∧
            (run P (step P c i).1 rest).state.active = true) := by
          rintro ⟨e1, e2⟩
          rcases h2 with h2 | ⟨_, h2⟩
          · omega
          · rw [h2] at e2; cases e2
        simp [h, hact, hne]
    · rw [h] at hc; cases hc

lemma halfCloseCount_concat (l : List TransportCall) :
    halfCloseCount (l ++ [TransportCall.HalfClose]) = halfCloseCount l + 1 := by
  induction l with
  | nil => rfl
  | cons call rest ih => cases call <;> simp [halfCloseCount, ih]

end ControllerFacts

end Orbit

namespace Orbit

/-! ## Claims on the capture client -/

/-- C1: in every controller state other than `Idle`, `StartCapture` fails with
`AlreadyCapturing` and leaves the controller as it was: state, transport handle
`reader_writer_`, `event_processor_`, the calls made on the transport and the
calls delivered to the listener are all unchanged. -/
theorem StartCapture_while_not_idle {R D S : Type} (P : Processor R D S)
    (c : Controller D S) (target : CaptureTarget) (opened : Option Nat)
    (h : c.state ≠ State.Idle) :
    step P c (Input.StartCapture target opened) =
      (c, CallResult.failed ErrorKind.AlreadyCapturing) := by
  simp [step, Controller.StartCapture, h]

/-- C1, on a controller that is capturing after one response. -/
theorem StartCapture_while_not_idle_witness :
    step sampleProcessor
        (run sampleProcessor (Controller.initial Nat Nat)
          [Input.StartCapture sampleTarget (some 7), Input.Response 5])
        (Input.StartCapture sampleTarget (some 8)) =
      (run sampleProcessor (Controller.initial Nat Nat)
          [Input.StartCapture sampleTarget (some 7), Input.Response 5],
        CallResult.failed ErrorKind.AlreadyCapturing) :=
  StartCapture_while_not_idle sampleProcessor _ sampleTarget (some 8) (by decide)

/-- C3: take a session started on an `Idle` controller, then any inputs that
cannot end it (responses, `StopCapture` calls, rejected `StartCapture` calls
and the finalize pass, which does nothing during a session, in any order),
none of the RawEvents among them malformed or fatal, then one
input that can end it: end-of-stream, a transport error or the end of the
grace period. The DomainEvents delivered to the listener are exactly the
outputs of `Process` on each RawEvent, concatenated in receive order, and,
once the session is over, in whichever of the three ways, followed by the
output of `Finalize`. End-of-stream and a transport error always end the
session, the end of the grace period does when a stop was requested. -/
theorem delivered_events_complete {R D S : Type} (P : Processor R D S)
    (c : Controller D S) (target : CaptureTarget) (handle : Nat)
    (body : List (Input R)) (ending : Input R) (evs : List D) (last : S)
    (hidle : c.state = State.Idle) (htarget : target.selected_functions ≠ [])
    (hbody : ∀ i ∈ body, i ≠ Input.EndOfStream ∧ i ≠ Input.TransportError ∧
      i ≠ Input.GraceElapsed)
    (hdec : decodeAll P P.fresh (rawsOf body) = some (evs, last))
    (hend : ending = Input.EndOfStream ∨ ending = Input.TransportError ∨
      ending = Input.GraceElapsed) :
    (∃ added,
        (run P c (Input.StartCapture target (some handle) :: (body ++ [ending]))).listener
          = c.listener ++ added ∧
        delivered added = evs ++
          (if (run P c (Input.StartCapture target (some handle) ::
                (body ++ [ending]))).state.active = true
            then [] else P.Finalize last)) ∧
      (ending = Input.EndOfStream →
        (run P c (Input.StartCapture target (some handle) :: (body ++ [ending]))).state =
          State.Finished) ∧
      (ending = Input.TransportError →
        (run P c (Input.StartCapture target (some handle) :: (body ++ [ending]))).state =
          State.Error) ∧
      (ending = Input.GraceElapsed →
        (run P c (Input.StartCapture target (some handle) :: body)).state = State.Stopping →
        (run P c (Input.StartCapture target (some handle) :: (body ++ [ending]))).state =
          State.Finished) := by
  have hstart : (step P c (Input.StartCapture target (some handle))).1.listener = c.listener ∧
      Receiving (step P c (Input.StartCapture target (some handle))).1 P.fresh := by
    simp [step, Controller.StartCapture, hidle, htarget, Receiving, State.active]
  obtain ⟨hl₀, hrecv₀⟩ := hstart
  have hg₀ : Grows c (step P c (Input.StartCapture target (some handle))).1 [] :=
    ⟨[], by simp [hl₀], rfl⟩
  obtain ⟨hrecv₁, hg₁⟩ := run_body P body _ P.fresh last evs hrecv₀ hbody hdec
  have hg₀₁ : Grows c (run P (step P c (Input.StartCapture target (some handle))).1 body)
      evs := by
    simpa using Grows_trans hg₀ hg₁
  have hrun : run P c (Input.StartCapture target (some handle) :: (body ++ [ending])) =
      (step P (run P (step P c (Input.StartCapture target (some handle))).1 body) ending).1 := by
    simp [run, run_append]
  have hrunb : run P c (Input.StartCapture target (some handle) :: body) =
      run P (step P c (Input.StartCapture target (some handle))).1 body := rfl
  rw [hrun, hrunb]
  rcases hend with rfl | rfl | rfl
  · obtain ⟨hfin, hg₂⟩ := onEndOfStream_receiving P _ last hrecv₁
    have hst : (step P (run P (step P c (Input.StartCapture target (some handle))).1 body)
        Input.EndOfStream).1.state = State.Finished := hfin
    refine ⟨?_, ?_, ?_, ?_⟩
    · obtain ⟨added, h1, h2⟩ := Grows_trans hg₀₁ hg₂
      exact ⟨added, h1, by rw [h2, hst]; simp [State.active]⟩
    · intro _; exact hst
    · intro h; cases h
    · intro h; cases h
  · obtain ⟨hfin, hg₂⟩ := onTransportError_receiving P _ last hrecv₁
    have hst : (step P (run P (step P c (Input.StartCapture target (some handle))).1 body)
        Input.TransportError).1.state = State.Error := hfin
    refine ⟨?_, ?_, ?_, ?_⟩
    · obtain ⟨added, h1, h2⟩ := Grows_trans hg₀₁ hg₂
      exact ⟨added, h1, by rw [h2, hst]; simp [State.active]⟩
    · intro h; cases h
    · intro _; exact hst
    · intro h; cases h
  · by_cases hs : (run P (step P c (Input.StartCapture target (some handle))).1 body).state =
        State.Stopping
    · obtain ⟨hfin, hg₂⟩ := onGraceElapsed_stopping P _ last hrecv₁ hs
      have hst : (step P (run P (step P c (Input.StartCapture target (some handle))).1 body)
          Input.GraceElapsed).1.state = State.Finished := hfin
      refine ⟨?_, ?_, ?_, ?_⟩
      · obtain ⟨added, h1, h2⟩ := Grows_trans hg₀₁ hg₂
        exact ⟨added, h1, by rw [h2, hst]; simp [State.active]⟩
      · intro h; cases h
      · intro h; cases h
      · intro _ _; exact hst
    · have hsame : (step P (run P (step P c (Input.StartCapture target (some handle))).1 body)
          Input.GraceElapsed).1 =
          run P (step P c (Input.StartCapture target (some handle))).1 body :=
        onGraceElapsed_other P _ hs
      rw [hsame]
      refine ⟨?_, ?_, ?_, ?_⟩
      · obtain ⟨added, h1, h2⟩ := hg₀₁
        exact ⟨added, h1, by rw [h2, hrecv₁.1]; simp⟩
      · intro h; cases h
      · intro h; cases h
      · intro _ h; exact absurd h hs

/-- C3, on a session that gets two RawEvents, two stop requests with a rejected
`StartCapture` in between, one more RawEvent during the drain, and is then
closed by the end of the grace period: the listener receives `[5, 6, 9]` and
then the flushed `[103]`. -/
theorem delivered_events_complete_witness :
    (run sampleProcessor (Controller.initial Nat Nat)
        (Input.StartCapture sampleTarget (some 7) ::
          ([Input.Response 5, Input.Response 6, Input.StopCapture,
            Input.StartCapture sampleTarget (some 8), Input.StopCapture, Input.Response 9] ++
            [Input.GraceElapsed]))).state = State.Finished ∧
      ∃ added,
        (run sampleProcessor (Controller.initial Nat Nat)
          (Input.StartCapture sampleTarget (some 7) ::
            ([Input.Response 5, Input.Response 6, Input.StopCapture,
              Input.StartCapture sampleTarget (some 8), Input.StopCapture, Input.Response 9] ++
              [Input.GraceElapsed]))).listener
          = (Controller.initial Nat Nat).listener ++ added ∧
        delivered added = [5, 6, 9] ++ [103] := by
  obtain ⟨⟨added, h1, h2⟩, _, _, hgrace⟩ :=
    delivered_events_complete sampleProcessor (Controller.initial Nat Nat) sampleTarget 7
      [Input.Response 5, Input.Response 6, Input.StopCapture,
        Input.StartCapture sampleTarget (some 8), Input.StopCapture, Input.Response 9]
      Input.GraceElapsed [5, 6, 9] 3 (by decide) (by decide) (by decide) (by decide)
      (Or.inr (Or.inr rfl))
  have hst := hgrace rfl (by decide)
  refine ⟨hst, added, h1, ?_⟩
  rw [h2, hst]
  decide

/-- C4: in the listener log of any run of the controller, an `OnEvents` call that
comes after an `OnFinished` or `OnError` call never belongs to the session
that call ended. -/
theorem no_events_after_end {R D S : Type} (P : Processor R D S)
    (inputs : List (Input R)) (pre mid post : List (Nat × ListenerCall D))
    (a b : Nat × ListenerCall D)
    (hlog : (run P (Controller.initial D S) inputs).listener = pre ++ a :: (mid ++ b :: post))
    (ha : a.2.isEnd = true) (hb : b.2.isEvents = true) :
    a.1 ≠ b.1 := by
  have hinv := (LogInv_run P inputs _ LogInv_initial).1
  rw [hlog, List.pairwise_append] at hinv
  have hcons := List.pairwise_cons.mp hinv.2.1
  have hnot := hcons.1 b (by simp)
  intro hab
  exact hnot ⟨hab, ha, hb⟩

/-- C4, on a run of two sessions: the first one ends truncated, the second one
delivers events after that. -/
theorem no_events_after_end_witness :
    (run sampleProcessor (Controller.initial Nat Nat)
        [Input.StartCapture sampleTarget (some 7), Input.Response 5, Input.EndOfStream,
         Input.FinalizePass, Input.StartCapture sampleTarget (some 8),
         Input.Response 6]).listener =
      [(1, ListenerCall.OnStarted), (1, ListenerCall.OnEvents [5]),
       (1, ListenerCall.OnEvents [101])] ++
        (1, ListenerCall.OnFinished true) ::
          ([(2, ListenerCall.OnStarted)] ++ (2, ListenerCall.OnEvents [6]) :: []) ∧
      ((1, ListenerCall.OnFinished true) : Nat × ListenerCall Nat).1 ≠
        ((2, ListenerCall.OnEvents [6]) : Nat × ListenerCall Nat).1 :=
  ⟨by decide,
   no_events_after_end sampleProcessor
     [Input.StartCapture sampleTarget (some 7), Input.Response 5, Input.EndOfStream,
      Input.FinalizePass, Input.StartCapture sampleTarget (some 8), Input.Response 6]
     [(1, ListenerCall.OnStarted), (1, ListenerCall.OnEvents [5]),
      (1, ListenerCall.OnEvents [101])]
     [(2, ListenerCall.OnStarted)] []
     (1, ListenerCall.OnFinished true) (2, ListenerCall.OnEvents [6])
     (by decide) (by decide) (by decide)⟩

/-- C5: on a capturing session the first `StopCapture` succeeds and the second
one, right after it, succeeds too and changes nothing; together they put
exactly one half-close on the transport and notify the listener of nothing;
and whatever happens afterwards, the session gets no `OnFinished` / `OnError`
while it is still in progress and exactly one once it is over. -/
theorem StopCapture_idempotent {R D S : Type} (P : Processor R D S)
    (c : Controller D S) (hc : c.state = State.Capturing) (later : List (Input R)) :
    (step P c Input.StopCapture).2 = CallResult.ok ∧
      step P (step P c Input.StopCapture).1 Input.StopCapture =
        ((step P c Input.StopCapture).1, CallResult.ok) ∧
      halfCloseCount (step P (step P c Input.StopCapture).1 Input.StopCapture).1.transport =
        halfCloseCount c.transport + 1 ∧
      (step P (step P c Input.StopCapture).1 Input.StopCapture).1.listener = c.listener ∧
      endCount c.session
          (run P c (Input.StopCapture :: Input.StopCapture :: later)).listener =
        endCount c.session c.listener +
          (if (run P c (Input.StopCapture :: Input.StopCapture :: later)).session = c.session ∧
              (run P c (Input.StopCapture :: Input.StopCapture :: later)).state.active = true
            then 0 else 1) := by
  have h1 : step P c Input.StopCapture =
      ({ c with state := State.Stopping,
                transport := c.transport ++ [TransportCall.HalfClose] }, CallResult.ok) := by
    simp [step, Controller.StopCapture, hc]
  have h2 : step P (step P c Input.StopCapture).1 Input.StopCapture =
      ((step P c Input.StopCapture).1, CallResult.ok) := by
    rw [h1]
    simp [step, Controller.StopCapture]
  refine ⟨by rw [h1], h2, ?_, ?_, ?_⟩
  · rw [h2, h1]
    exact halfCloseCount_concat c.transport
  · rw [h2, h1]
  · exact endCount_active P _ c (by rw [hc]; rfl)

/-- C5, on a session that is stopped twice after one response and then drains
one more response before end-of-stream: one half-close, one `OnFinished`. -/
theorem StopCapture_idempotent_witness :
    halfCloseCount
        (step sampleProcessor
          (step sampleProcessor
            (run sampleProcessor (Controller.initial Nat Nat)
              [Input.StartCapture sampleTarget (some 7), Input.Response 5])
            Input.StopCapture).1 Input.StopCapture).1.transport = 0 + 1 ∧
      endCount 1
          (run sampleProcessor
            (run sampleProcessor (Controller.initial Nat Nat)
              [Input.StartCapture sampleTarget (some 7), Input.Response 5])
            (Input.StopCapture :: Input.StopCapture ::
              [Input.Response 9, Input.EndOfStream])).listener = 0 + 1 := by
  have h := StopCapture_idempotent sampleProcessor
    (run sampleProcessor (Controller.initial Nat Nat)
      [Input.StartCapture sampleTarget (some 7), Input.Response 5])
    (by decide) [Input.Response 9, Input.EndOfStream]
  exact ⟨h.2.2.1, h.2.2.2.2⟩

/-- C6: the `CaptureClient` constructor aborts on `CHECK(capture_listener_ !=
nullptr)` exactly when the listener is null, and otherwise yields a client
holding that listener; so every constructed client, the only thing a capture
can be started on, holds a non-null listener. -/
theorem CaptureClient_create_checks_listener {Channel Stub RW L EP : Type}
    (NewStub : Channel → Stub) (channel : Channel) (capture_listener : Option L) :
    (CaptureClient.create NewStub channel capture_listener :
        Except String (CaptureClient Stub RW L EP)) =
      (match capture_listener with
        | none => Except.error "Check failed: capture_listener_ != nullptr"
        | some l =>
          Except.ok { capture_service_ := NewStub channel, reader_writer_ := none,
                      capture_listener_ := some l, event_processor_ := none }) ∧
      (∀ client : CaptureClient Stub RW L EP,
        CaptureClient.create NewStub channel capture_listener = Except.ok client →
          client.capture_listener_ = capture_listener ∧ client.capture_listener_ ≠ none) := by
  cases capture_listener with
  | none =>
    refine ⟨rfl, ?_⟩
    intro client h
    simp [CaptureClient.create, CHECK] at h
  | some l =>
    refine ⟨rfl, ?_⟩
    intro client h
    simp [CaptureClient.create, CHECK] at h
    subst h
    simp

/-- C6, for a null listener and for the listener `3`. -/
theorem CaptureClient_create_checks_listener_witness :
    (CaptureClient.create (fun n : Nat => n + 1) 0 (none : Option Nat) :
        Except String (CaptureClient Nat Nat Nat Nat)) =
      Except.error "Check failed: capture_listener_ != nullptr" ∧
    (CaptureClient.create (fun n : Nat => n + 1) 0 (some 3) :
        Except String (CaptureClient Nat Nat Nat Nat)) =
      Except.ok { capture_service_ := 1, reader_writer_ := none,
                  capture_listener_ := some 3, event_processor_ := none } :=
  ⟨(CaptureClient_create_checks_listener (fun n : Nat => n + 1) 0 none).1,
   (CaptureClient_create_checks_listener (fun n : Nat => n + 1) 0 (some 3)).1⟩

end Orbit

namespace Orbit

/-! ## Facts about trimming -/

lemma rdropWhile_cons {α : Type} (p : α → Bool) (c : α) (tl : List α) :
    (c :: tl).rdropWhile p =
      if (tl.rdropWhile p).isEmpty then (if p c then [] else [c])
      else c :: tl.rdropWhile p := by
  unfold List.rdropWhile
  rw [List.reverse_cons, List.dropWhile_append]
  cases hd : List.dropWhile p tl.reverse with
  | nil =>
    simp only [List.isEmpty_nil, List.reverse_nil, if_true]
    by_cases hc : p c = true
    · simp [List.dropWhile, hc]
    · have hc' : p c = false := by simpa using hc
      simp [List.dropWhile, hc']
  | cons a b => simp

lemma dropWhile_rdropWhile_comm {α : Type} (p : α → Bool) (l : List α) :
    (l.rdropWhile p).dropWhile p = (l.dropWhile p).rdropWhile p := by
  induction l with
  | nil => simp [List.rdropWhile]
  | cons c tl ih =>
    rw [rdropWhile_cons]
    by_cases hc : p c = true
    · rw [List.dropWhile_cons_of_pos hc]
      cases hnil : tl.rdropWhile p with
      | nil =>
        have hall : ∀ x ∈ tl, p x = true := List.rdropWhile_eq_nil_iff.mp hnil
        have hd : tl.dropWhile p = [] := List.dropWhile_eq_nil_iff.mpr hall
        rw [hd]
        simp [hc, List.rdropWhile]
      | cons a b =>
        rw [hnil] at ih
        simp only [List.isEmpty_cons, Bool.false_eq_true, if_false]
        rw [List.dropWhile_cons_of_pos hc]
        exact ih
    · have hc' : p c = false := by simpa using hc
      rw [List.dropWhile_cons_of_neg hc, rdropWhile_cons]
      cases hnil : tl.rdropWhile p with
      | nil => simp [hc', List.dropWhile]
      | cons a b => simp [hc', List.dropWhile]

lemma addSz_npos_one : addSz npos 1 = 0 := by
  decide

lemma find_last_not_of_aux_spec (chars : Str) :
    ∀ r : Str, r.length < SIZE_MOD →
      addSz (find_last_not_of_aux chars r) 1 ≤ r.length ∧
        r.reverse.take (addSz (find_last_not_of_aux chars r) 1) =
          (r.dropWhile chars.contains).reverse := by
  intro r
  induction r with
  | nil =>
    intro _
    simp [find_last_not_of_aux, addSz_npos_one]
  | cons c tl ih =>
    intro h
    have htl : tl.length < SIZE_MOD := by
      simp only [List.length_cons] at h
      omega
    obtain ⟨h1, h2⟩ := ih htl
    by_cases hc : chars.contains c = true
    · have e : find_last_not_of_aux chars (c :: tl) = find_last_not_of_aux chars tl := by
        simp only [find_last_not_of_aux, hc, if_true, if_false, Bool.false_eq_true]
      rw [e, List.dropWhile_cons_of_pos hc, List.reverse_cons]
      refine ⟨by simp only [List.length_cons]; omega, ?_⟩
      rw [List.take_append_of_le_length (by simpa using h1)]
      exact h2
    · have e : find_last_not_of_aux chars (c :: tl) = tl.length := by
        simp only [find_last_not_of_aux, hc, if_true, if_false, Bool.false_eq_true]
      have e2 : addSz tl.length 1 = tl.length + 1 := by
        unfold addSz
        simp only [List.length_cons] at h
        exact Nat.mod_eq_of_lt h
      rw [e, e2, List.dropWhile_cons_of_neg hc]
      refine ⟨by simp, ?_⟩
      apply List.take_of_length_le
      simp

lemma RTrim_eq (str chars : Str) (hsz : str.length < SIZE_MOD) :
    RTrim str chars = some (str.rdropWhile chars.contains) := by
  obtain ⟨h1, h2⟩ := find_last_not_of_aux_spec chars str.reverse (by simpa using hsz)
  rw [List.length_reverse] at h1
  rw [List.reverse_reverse] at h2
  unfold RTrim erase find_last_not_of
  have hnot : ¬ addSz (find_last_not_of_aux chars str.reverse) 1 > str.length := by omega
  have hmin : min npos (str.length - addSz (find_last_not_of_aux chars str.reverse) 1) =
      str.length - addSz (find_last_not_of_aux chars str.reverse) 1 := by
    apply min_eq_right
    unfold npos
    omega
  simp only [hnot, if_false, hmin, h2]
  have hdrop : List.drop (addSz (find_last_not_of_aux chars str.reverse) 1 +
      (str.length - addSz (find_last_not_of_aux chars str.reverse) 1)) str = [] := by
    apply List.drop_of_length_le
    omega
  rw [hdrop, List.append_nil]
  rfl

lemma find_first_not_of_aux_spec (chars : Str) :
    ∀ (rest : Str) (i : Nat), i + rest.length < SIZE_MOD →
      i ≤ find_first_not_of_aux chars rest i ∧
        rest.drop (min (find_first_not_of_aux chars rest i - i) rest.length) =
          rest.dropWhile chars.contains := by
  intro rest
  induction rest with
  | nil =>
    intro i h
    simp only [List.length_nil, Nat.add_zero] at h
    refine ⟨?_, by simp⟩
    simp only [find_first_not_of_aux, npos]
    omega
  | cons c tl ih =>
    intro i h
    simp only [List.length_cons] at h
    by_cases hc : chars.contains c = true
    · obtain ⟨h1, h2⟩ := ih (i + 1) (by omega)
      have e : find_first_not_of_aux chars (c :: tl) i =
          find_first_not_of_aux chars tl (i + 1) := by
        simp only [find_first_not_of_aux, hc, if_true, if_false, Bool.false_eq_true]
      rw [e, List.dropWhile_cons_of_pos hc]
      refine ⟨by omega, ?_⟩
      have hm : min (find_first_not_of_aux chars tl (i + 1) - i) (c :: tl).length =
          min (find_first_not_of_aux chars tl (i + 1) - (i + 1)) tl.length + 1 := by
        simp only [List.length_cons]
        omega
      rw [hm, List.drop_succ_cons]
      exact h2
    · have e : find_first_not_of_aux chars (c :: tl) i = i := by
        simp only [find_first_not_of_aux, hc, if_true, if_false, Bool.false_eq_true]
      rw [e, List.dropWhile_cons_of_neg hc]
      simp

lemma LTrim_eq (str chars : Str) (hsz : str.length < SIZE_MOD) :
    LTrim str chars = some (str.dropWhile chars.contains) := by
  obtain ⟨_, h2⟩ := find_first_not_of_aux_spec chars str 0 (by simpa using hsz)
  unfold LTrim erase find_first_not_of
  simp only [Nat.sub_zero] at h2
  simp [h2]

lemma trim_eq (str chars : Str) (hsz : str.length < SIZE_MOD) :
    trim str chars = some ((str.rdropWhile chars.contains).dropWhile chars.contains) := by
  unfold trim
  rw [RTrim_eq str chars hsz]
  simp only
  apply LTrim_eq
  have := (List.rdropWhile_prefix chars.contains (l := str)).length_le
  omega

lemma find_last_not_of_aux_all (chars : Str) :
    ∀ r : Str, (∀ c ∈ r, c ∈ chars) → find_last_not_of_aux chars r = npos := by
  intro r
  induction r with
  | nil => intro _; rfl
  | cons c tl ih =>
    intro h
    have hc : chars.contains c = true := by
      simpa using h c (by simp)
    simp only [find_last_not_of_aux, hc, if_true]
    exact ih (fun x hx => h x (List.mem_cons_of_mem c hx))

end Orbit

namespace Orbit

/-! ## Facts about `GetMicros` and the panel factory -/

lemma rdropWhile_append_rtakeWhile {α : Type} (p : α → Bool) (l : List α) :
    l.rdropWhile p ++ l.rtakeWhile p = l := by
  unfold List.rdropWhile List.rtakeWhile
  rw [← List.reverse_append, List.takeWhile_append_dropWhile, List.reverse_reverse]

lemma StrSplit_length (delimiter : Char) (text : Str) :
    (StrSplit delimiter text).length = text.count delimiter + 1 := by
  induction text with
  | nil => rfl
  | cons c tl ih =>
    by_cases hc : c = delimiter
    · subst hc
      simp [StrSplit, ih]
    · have hne : (c == delimiter) = false := by simpa using hc
      simp only [StrSplit, hc, if_false, List.count_cons, hne]
      cases hs : StrSplit delimiter tl with
      | nil => rw [hs] at ih; simp at ih
      | cons piece pieces =>
        rw [hs] at ih
        simpa using ih

/-- The part of C11 that the code does meet: a timestamp that does not contain
exactly one `'.'` gives `0`. -/
lemma GetMicros_not_one_dot (fuel : Nat) (a_TimeStamp : Str)
    (hfuel : a_TimeStamp.length < fuel) (hdots : a_TimeStamp.count '.' ≠ 1) :
    GetMicros fuel a_TimeStamp = some 0 := by
  obtain ⟨r, hr⟩ := ReplaceLoop_terminates [':'] [] (by simp) fuel a_TimeStamp 0 (by omega)
  have hlen := StrSplit_length '.' a_TimeStamp
  unfold GetMicros Replace
  rw [hr]
  simp only
  cases hs : StrSplit '.' a_TimeStamp with
  | nil => rfl
  | cons t₀ rest =>
    cases rest with
    | nil => rfl
    | cons t₁ rest' =>
      cases rest' with
      | nil =>
        rw [hs] at hlen
        simp only [List.length_cons, List.length_nil] at hlen
        omega
      | cons t₂ rest'' => rfl

/-- A value of the enumeration that the `switch` does not name leaves `panel`
null, and `panel->m_Type = a_Type` dereferences it. -/
lemma GlPanel_Create_other {T : Type} [DecidableEq T] (CAPTURE a_Type : T)
    (h : a_Type ≠ CAPTURE) : GlPanel.Create CAPTURE a_Type = none := by
  simp [GlPanel.Create, h]

lemma GlPanel_Create_CAPTURE {T : Type} [DecidableEq T] (CAPTURE : T) :
    GlPanel.Create CAPTURE CAPTURE =
      some { GlPanel.construct T PanelClass.CaptureWindow with m_Type := some CAPTURE } := by
  simp [GlPanel.Create]

end Orbit

namespace Orbit

/-! ## Claims on `GetMicros`, `trim` and the panel factory -/

/-- C11: on `"12:34:56.789"` the code returns `12 * 1000000 + 789`, not
`123456 * 1000000 + 789`: the result of `Replace(a_TimeStamp, ":", "")` is
dropped, the colons stay in the string, and `atoi` stops at the first one. -/
theorem GetMicros_keeps_colons :
    GetMicros 20 "12:34:56.789".toList = some (12 * 1000000 + 789) ∧
      GetMicros 20 "12:34:56.789".toList ≠ some (123456 * 1000000 + 789) ∧
      Replace 20 "12:34:56.789".toList [':'] [] = some "123456.789".toList := by
  decide

/-- C12: for every string `str` and character set `chars`, `trim(str, chars)`
returns `str` without its longest prefix and its longest suffix made of
characters of `chars`: the result is `pre ++ result ++ suf = str` with `pre` and
`suf` inside `chars`, and it neither starts nor ends with a character of
`chars`. When every character of `str` is in `chars` (the empty `str` included)
`find_last_not_of` returns `npos`, `npos + 1` wraps to `0`, `RTrim` returns the
empty string and so does `trim`. -/
theorem trim_removes_prefix_and_suffix (str chars : Str) (hsz : str.length < SIZE_MOD) :
    trim str chars = some (trimmed str chars) ∧
      (∃ pre suf, str = pre ++ trimmed str chars ++ suf ∧
        (∀ c ∈ pre, c ∈ chars) ∧ (∀ c ∈ suf, c ∈ chars)) ∧
      (∀ c, (trimmed str chars).head? = some c → c ∉ chars) ∧
      (∀ c, (trimmed str chars).getLast? = some c → c ∉ chars) ∧
      ((∀ c ∈ str, c ∈ chars) →
        find_last_not_of str chars = npos ∧ addSz npos 1 = 0 ∧
          RTrim str chars = some [] ∧ trim str chars = some []) := by
  have hcomm := dropWhile_rdropWhile_comm chars.contains str
  have htrim : trim str chars = some (trimmed str chars) := by
    rw [trim_eq str chars hsz, hcomm]
    rfl
  refine ⟨htrim, ?_, ?_, ?_, ?_⟩
  · refine ⟨str.takeWhile chars.contains,
      (str.dropWhile chars.contains).rtakeWhile chars.contains, ?_, ?_, ?_⟩
    · unfold trimmed
      rw [List.append_assoc, rdropWhile_append_rtakeWhile, List.takeWhile_append_dropWhile]
    · intro c hc
      have := List.mem_takeWhile_imp hc
      simpa using this
    · intro c hc
      have := List.mem_rtakeWhile_imp hc
      simpa using this
  · intro c hc hmem
    have hhead := List.head?_dropWhile_not chars.contains (str.rdropWhile chars.contains)
    unfold trimmed at hc
    rw [← hcomm] at hc
    rw [hc] at hhead
    simp only at hhead
    have : chars.contains c = true := by simpa using hmem
    rw [this] at hhead
    cases hhead
  · intro c hc hmem
    have hne : trimmed str chars ≠ [] := by
      intro h
      rw [h] at hc
      cases hc
    have hlast := List.rdropWhile_last_not chars.contains
      (str.dropWhile chars.contains) hne
    have hget : (trimmed str chars).getLast? = some ((trimmed str chars).getLast hne) :=
      List.getLast?_eq_getLast _ hne
    rw [hget] at hc
    simp only [Option.some.injEq] at hc
    apply hlast
    have : chars.contains c = true := by simpa using hmem
    rw [← hc] at this
    exact this
  · intro hall
    have h1 : find_last_not_of str chars = npos := by
      unfold find_last_not_of
      apply find_last_not_of_aux_all
      intro c hc
      exact hall c (List.mem_reverse.mp hc)
    have hp : ∀ x ∈ str, chars.contains x = true := by
      intro x hx
      simpa using hall x hx
    have h2 : RTrim str chars = some [] := by
      rw [RTrim_eq str chars hsz, List.rdropWhile_eq_nil_iff.mpr hp]
    have h3 : trimmed str chars = [] := by
      unfold trimmed
      rw [List.dropWhile_eq_nil_iff.mpr hp]
      rfl
    exact ⟨h1, addSz_npos_one, h2, by rw [htrim, h3]⟩

/-- C12, on `"  ab c \n"` with the default character set, and on a string of
blanks. -/
theorem trim_removes_prefix_and_suffix_witness :
    trim "  ab c \n".toList defaultTrimChars = some "ab c".toList ∧
      trim "   ".toList defaultTrimChars = some [] := by
  have h₁ := trim_removes_prefix_and_suffix "  ab c \n".toList defaultTrimChars (by decide)
  have h₂ := trim_removes_prefix_and_suffix "   ".toList defaultTrimChars (by decide)
  refine ⟨?_, (h₂.2.2.2.2 (by decide)).2.2.2⟩
  rw [h₁.1]
  decide

end Orbit
